import Mathlib

/-! ScanTailor Universal: the publishing settings store and the debug image view

A shallow embedding of

* `src/filters/publishing/Settings.cpp`: the per-page parameter store, a
  `std::map<PageId, Params>` behind a mutex;
* `src/DebugImageView.cpp`: the widget that loads an image on a worker thread
  and receives the result on the main thread through a `QPointer`, with its
  save-as action;
* `src/filters/deskew/ApplyDialog.cpp`: the scopes of `onSubmit`.

Every operation of `Settings` takes the mutex for its whole body, so each one
is a function from the store before the call to the store after it. A
`std::map` is embedded as the list of its entries in iteration order; an
iterator is a position in that list and `end()` is the length of the list.
-/

namespace publishing

/-! ## Value types held by the store -/

/-- Modelled from the spec: `Dpi.h` is not among the sources. The output
resolution is a pair of integers; the default constructor gives `(0, 0)`. -/
structure Dpi where
  m_xDpi : Int := 0
  m_yDpi : Int := 0
  deriving DecidableEq, Repr

/-- Modelled from the spec: `QJSValue` is the opaque state blob of the encoder
and of the converter. The default constructor gives the undefined value. -/
inductive QJSValue where
  | undefined : QJSValue
  | blob (payload : String) : QJSValue
  deriving DecidableEq, Repr

/-- Modelled from the spec: `Params.h` is not among the sources. A record holds
the output resolution and the two state blobs, each with its own setter and
getter; `Params()` is the record of default values. -/
structure Params where
  m_dpi : Dpi := {}
  m_encoderState : QJSValue := QJSValue.undefined
  m_converterState : QJSValue := QJSValue.undefined
  deriving DecidableEq, Repr

namespace Params

/-- Modelled from the spec: the getter of the output resolution. -/
def outputDpi (p : Params) : Dpi := p.m_dpi

/-- Modelled from the spec: the getter of the encoder state. -/
def encoderState (p : Params) : QJSValue := p.m_encoderState

/-- Modelled from the spec: the getter of the converter state. -/
def converterState (p : Params) : QJSValue := p.m_converterState

/-- Modelled from the spec: the setter of the output resolution; the other fields stay. -/
def setOutputDpi (p : Params) (dpi : Dpi) : Params := { p with m_dpi := dpi }

/-- Modelled from the spec: the setter of the encoder state; the other fields stay. -/
def setEncoderState (p : Params) (val : QJSValue) : Params := { p with m_encoderState := val }

/-- Modelled from the spec: the setter of the converter state; the other fields stay. -/
def setConverterState (p : Params) (val : QJSValue) : Params := { p with m_converterState := val }

end Params

/-! ## `std::map` as the list of its entries -/

/-- The entries of a `std::map<K, V>` in iteration order. -/
abbrev StdMap (K V : Type) := List (K × V)

namespace StdMap

variable {K V : Type} [LinearOrder K]

/-- The class invariant of `std::map`: keys strictly ascending under `key_comp`. -/
def Ordered (m : StdMap K V) : Prop := m.Pairwise (fun a b => a.1 < b.1)

instance (m : StdMap K V) : Decidable (Ordered m) := by
  unfold Ordered
  infer_instance

/-- The iterator `end()`. -/
def end_ (m : StdMap K V) : Nat := m.length

/-- The comparison `key_comp()`, which is `std::less<K>`. -/
def key_comp (a b : K) : Bool := decide (a < b)

/-- The iterator `lower_bound(k)`: the first position whose key is not less than `k`. -/
def lower_bound : StdMap K V → K → Nat
  | [], _ => 0
  | e :: rest, k => if key_comp e.1 k then lower_bound rest k + 1 else 0

/-- The test `it == end() || key_comp()(k, it->first)`. -/
def endOrGreater (m : StdMap K V) (it : Nat) (k : K) : Bool :=
  match m[it]? with
  | none => true
  | some e => key_comp k e.1

/-- The iterator `find(k)`: the position of the entry whose key is equivalent to `k`, or `end()`. -/
def find (m : StdMap K V) (k : K) : Nat :=
  let it := lower_bound m k
  if endOrGreater m it k then m.end_ else it

/-- Placing `kv` right before position `it`. -/
def splice (m : StdMap K V) (it : Nat) (kv : K × V) : StdMap K V :=
  m.take it ++ kv :: m.drop it

/-- The unhinted `insert(value)`: no effect when the key has an entry. -/
def insert (m : StdMap K V) (kv : K × V) : StdMap K V :=
  let it := lower_bound m kv.1
  if endOrGreater m it kv.1 then splice m it kv else m

/-- Whether `kv.first` may stand right before position `hint`: the key before
`hint` (if any) is less, and `hint` is `end()` or holds a greater key. -/
def hintFits (m : StdMap K V) (hint : Nat) (k : K) : Bool :=
  (match hint with
    | 0 => true
    | n + 1 =>
      match m[n]? with
      | some e => key_comp e.1 k
      | none => false) &&
  (match m[hint]? with
    | some e => key_comp k e.1
    | none => decide (hint = m.end_))

/-- The hinted `insert(hint, value)`: the value goes right before `hint` when
the hint is right, and where the unhinted insert puts it otherwise. -/
def insert_hint (m : StdMap K V) (hint : Nat) (kv : K × V) : StdMap K V :=
  if hintFits m hint kv.1 then splice m hint kv else insert m kv

/-- The in-place update `f(it->second)` of the value at position `it`. -/
def mutate : StdMap K V → Nat → (V → V) → StdMap K V
  | [], _, _ => []
  | e :: rest, 0, f => (e.1, f e.2) :: rest
  | e :: rest, n + 1, f => e :: mutate rest n f

/-- The entries whose key is `k`. -/
def entriesFor (m : StdMap K V) (k : K) : List (K × V) :=
  m.filter (fun e => decide (e.1 = k))

end StdMap

/-- Modelled from the spec: `Utils::mapSetValue` is in `Utils.h`, which is not
among the sources. It unconditionally overwrites or creates the entry for
`key`: one ordered lookup, then an assignment to the entry found or a hinted
insert. -/
def Utils.mapSetValue {K V : Type} [LinearOrder K] (map : StdMap K V) (key : K) (val : V) :
    StdMap K V :=
  let it := StdMap.lower_bound map key
  if StdMap.endOrGreater map it key then
    StdMap.insert_hint map it (key, val)
  else
    StdMap.mutate map it (fun _ => val)

/-! ## `publishing::Settings` -/

/-- Modelled from the spec: `AbstractRelinker.h` is not among the sources. It
is the mapping handed to `performRelinking`, which does not use it. -/
structure AbstractRelinker where
  substitutionPathFor : String → String

abbrev PerPageParams (PageId : Type) := StdMap PageId Params

/-- The state of a `Settings` object. -/
structure Settings (PageId : Type) where
  m_perPageParams : PerPageParams PageId := []

namespace Settings

variable {PageId : Type} [LinearOrder PageId]

/-- The store is a well-formed `std::map`. -/
def WF (s : Settings PageId) : Prop := StdMap.Ordered s.m_perPageParams

instance (s : Settings PageId) : Decidable (WF s) := by
  unfold WF
  infer_instance

/-- The number of entries of the store. -/
def size (s : Settings PageId) : Nat := s.m_perPageParams.length

/-- The entries of the store whose key is `page_id`. -/
def entriesFor (s : Settings PageId) (page_id : PageId) : List (PageId × Params) :=
  StdMap.entriesFor s.m_perPageParams page_id

/-- The constructor `Settings::Settings()`. -/
def new : Settings PageId := {}

def clear (_s : Settings PageId) : Settings PageId :=
  { m_perPageParams := [] }

def performRelinking (s : Settings PageId) (_relinker : AbstractRelinker) : Settings PageId :=
  s

def getParams (s : Settings PageId) (page_id : PageId) : Params :=
  let it := StdMap.find s.m_perPageParams page_id
  if it ≠ StdMap.end_ s.m_perPageParams then
    match s.m_perPageParams[it]? with
    | some e => e.2
    | none => {}
  else
    {}

def setParams (s : Settings PageId) (page_id : PageId) (params : Params) : Settings PageId :=
  { m_perPageParams := Utils.mapSetValue s.m_perPageParams page_id params }

def setDpi (s : Settings PageId) (page_id : PageId) (dpi : Dpi) : Settings PageId :=
  let it := StdMap.lower_bound s.m_perPageParams page_id
  if StdMap.endOrGreater s.m_perPageParams it page_id then
    let params : Params := {}
    let params := params.setOutputDpi dpi
    { m_perPageParams := StdMap.insert_hint s.m_perPageParams it (page_id, params) }
  else
    { m_perPageParams := StdMap.mutate s.m_perPageParams it (fun p => p.setOutputDpi dpi) }

def setEncoderState (s : Settings PageId) (page_id : PageId) (val : QJSValue) :
    Settings PageId :=
  let it := StdMap.lower_bound s.m_perPageParams page_id
  if StdMap.endOrGreater s.m_perPageParams it page_id then
    let params : Params := {}
    let params := params.setEncoderState val
    { m_perPageParams := StdMap.insert_hint s.m_perPageParams it (page_id, params) }
  else
    { m_perPageParams := StdMap.mutate s.m_perPageParams it (fun p => p.setEncoderState val) }

def setConverterState (s : Settings PageId) (page_id : PageId) (val : QJSValue) :
    Settings PageId :=
  let it := StdMap.lower_bound s.m_perPageParams page_id
  if StdMap.endOrGreater s.m_perPageParams it page_id then
    let params : Params := {}
    let params := params.setConverterState val
    { m_perPageParams := StdMap.insert_hint s.m_perPageParams it (page_id, params) }
  else
    { m_perPageParams := StdMap.mutate s.m_perPageParams it (fun p => p.setConverterState val) }

def dpi (s : Settings PageId) (page_id : PageId) : Dpi :=
  let it := StdMap.find s.m_perPageParams page_id
  if it ≠ StdMap.end_ s.m_perPageParams then
    match s.m_perPageParams[it]? with
    | some e => e.2.outputDpi
    | none => {}
  else
    {}

def encoderState (s : Settings PageId) (page_id : PageId) : QJSValue :=
  let it := StdMap.find s.m_perPageParams page_id
  if it ≠ StdMap.end_ s.m_perPageParams then
    match s.m_perPageParams[it]? with
    | some e => e.2.encoderState
    | none => QJSValue.undefined
  else
    QJSValue.undefined

def converterState (s : Settings PageId) (page_id : PageId) : QJSValue :=
  let it := StdMap.find s.m_perPageParams page_id
  if it ≠ StdMap.end_ s.m_perPageParams then
    match s.m_perPageParams[it]? with
    | some e => e.2.converterState
    | none => QJSValue.undefined
  else
    QJSValue.undefined

end Settings

/-! ## The store as a state machine

Each public method runs under the mutex from start to end, so a call is a step
from the store before it to the store after it together with the value
returned. The `const` methods hand the store on as they found it. -/

/-- A value written by one of the three field setters. -/
inductive FieldValue where
  | dpi (dpi : Dpi) : FieldValue
  | encoderState (val : QJSValue) : FieldValue
  | converterState (val : QJSValue) : FieldValue
  deriving DecidableEq, Repr

namespace FieldValue

/-- Whether two written values are for the same field of the record. -/
def sameField : FieldValue → FieldValue → Bool
  | dpi _, dpi _ => true
  | encoderState _, encoderState _ => true
  | converterState _, converterState _ => true
  | _, _ => false

/-- The record `p` holds the written value in the field it was written to. -/
def heldBy : FieldValue → Params → Prop
  | dpi d, p => p.outputDpi = d
  | encoderState val, p => p.encoderState = val
  | converterState val, p => p.converterState = val

/-- The setter of `Params` that stores the value. -/
def applyTo : FieldValue → Params → Params
  | dpi d, p => p.setOutputDpi d
  | encoderState val, p => p.setEncoderState val
  | converterState val, p => p.setConverterState val

end FieldValue

/-- A call of a public method of `Settings`. -/
inductive Call (PageId : Type) where
  | clear : Call PageId
  | performRelinking (relinker : AbstractRelinker) : Call PageId
  | getParams (page_id : PageId) : Call PageId
  | setParams (page_id : PageId) (params : Params) : Call PageId
  | setDpi (page_id : PageId) (dpi : Dpi) : Call PageId
  | setEncoderState (page_id : PageId) (val : QJSValue) : Call PageId
  | setConverterState (page_id : PageId) (val : QJSValue) : Call PageId
  | dpi (page_id : PageId) : Call PageId
  | encoderState (page_id : PageId) : Call PageId
  | converterState (page_id : PageId) : Call PageId

/-- What a call returns. -/
inductive Reply where
  | void : Reply
  | params (p : Params) : Reply
  | dpi (d : Dpi) : Reply
  | jsValue (v : QJSValue) : Reply
  deriving DecidableEq, Repr

namespace Settings

variable {PageId : Type} [LinearOrder PageId]

/-- The field setter that takes the written value. -/
def setField (s : Settings PageId) (page_id : PageId) : FieldValue → Settings PageId
  | FieldValue.dpi d => s.setDpi page_id d
  | FieldValue.encoderState val => s.setEncoderState page_id val
  | FieldValue.converterState val => s.setConverterState page_id val

/-- One call on the store: the store after it and the value returned. -/
def call (s : Settings PageId) : Call PageId → Settings PageId × Reply
  | Call.clear => (s.clear, Reply.void)
  | Call.performRelinking relinker => (s.performRelinking relinker, Reply.void)
  | Call.getParams page_id => (s, Reply.params (s.getParams page_id))
  | Call.setParams page_id params => (s.setParams page_id params, Reply.void)
  | Call.setDpi page_id d => (s.setDpi page_id d, Reply.void)
  | Call.setEncoderState page_id val => (s.setEncoderState page_id val, Reply.void)
  | Call.setConverterState page_id val => (s.setConverterState page_id val, Reply.void)
  | Call.dpi page_id => (s, Reply.dpi (s.dpi page_id))
  | Call.encoderState page_id => (s, Reply.jsValue (s.encoderState page_id))
  | Call.converterState page_id => (s, Reply.jsValue (s.converterState page_id))

/-- The store after a sequence of calls. -/
def run (s : Settings PageId) : List (Call PageId) → Settings PageId
  | [] => s
  | c :: cs => run (s.call c).1 cs

end Settings

/-- Whether the call writes a record for `page_id`. -/
def Call.writes {PageId : Type} [LinearOrder PageId] : Call PageId → PageId → Bool
  | Call.setParams k _, page_id => decide (k = page_id)
  | Call.setDpi k _, page_id => decide (k = page_id)
  | Call.setEncoderState k _, page_id => decide (k = page_id)
  | Call.setConverterState k _, page_id => decide (k = page_id)
  | _, _ => false

/-! ## What the store holds, by structural recursion

The two functions below describe the content of a map without iterators; the
lemmas relate the iterator code above to them. -/

namespace StdMap

variable {K V : Type} [LinearOrder K]

/-- The value the lookup through `lower_bound` reaches for `k`, if any. -/
def lookup : StdMap K V → K → Option V
  | [], _ => none
  | e :: rest, k =>
    if e.1 < k then lookup rest k else if k < e.1 then none else some e.2

/-- The map in which `k` holds `c` when it had no value and `u v` when it held `v`. -/
def upsert : StdMap K V → K → V → (V → V) → StdMap K V
  | [], k, c, _ => [(k, c)]
  | e :: rest, k, c, u =>
    if e.1 < k then e :: upsert rest k c u
    else if k < e.1 then (k, c) :: e :: rest
    else (e.1, u e.2) :: rest

end StdMap

end publishing

/-! ## `DebugImageView`

The Qt classes are embedded by the part of their state the code reads and
writes. An object a `QPointer` may refer to lives at an address of the heap of
the main thread; the pointer resolves to nothing once the object is destroyed. -/

/-- `QImage`; `QImage(path)` gives the null image when the file cannot be read. -/
inductive QImage where
  | null : QImage
  | loaded (data : List Nat) : QImage
  deriving DecidableEq, Repr

def QImage.isNull : QImage → Bool
  | QImage.null => true
  | QImage.loaded _ => false

/-- What `QImage(path)` reads for each path. -/
abbrev ImageFiles := String → QImage

/-- `QAction`; the action of `imageLoaded` has its `triggered` signal connected to the save-as handler. -/
structure QAction where
  text : String
  deriving DecidableEq, Repr

inductive ContextMenuPolicy where
  | DefaultContextMenu : ContextMenuPolicy
  | ActionsContextMenu : ContextMenuPolicy
  deriving DecidableEq, Repr

/-- What an image view widget shows: the `BasicImageView` of an image, or
whatever the factory of the caller built. -/
inductive ViewContent where
  | basicImageView (image : QImage) : ViewContent
  | custom (description : String) : ViewContent
  deriving DecidableEq, Repr

/-- The widget built for a loaded image. -/
structure ImageView where
  content : ViewContent
  actions : List QAction := []
  contextMenuPolicy : ContextMenuPolicy := ContextMenuPolicy.DefaultContextMenu
  deriving DecidableEq, Repr

/-- Modelled from the spec: `BasicImageView.h` is not among the sources. It is
the default presentation, constructed from the produced value. -/
def BasicImageView (image : QImage) : ImageView :=
  { content := ViewContent.basicImageView image }

def ImageView.addAction (v : ImageView) (action : QAction) : ImageView :=
  { v with actions := v.actions ++ [action] }

def ImageView.setContextMenuPolicy (v : ImageView) (policy : ContextMenuPolicy) : ImageView :=
  { v with contextMenuPolicy := policy }

/-- A widget of the stack: the `ProcessingIndicationWidget` made by the
constructor, or an image view made by `imageLoaded`. -/
inductive QWidget where
  | ProcessingIndicationWidget : QWidget
  | view (v : ImageView) : QWidget
  deriving DecidableEq, Repr

/-- The state of a `QStackedWidget`: its widgets and `currentIndex()`, which
is `none` where Qt has -1. -/
structure QStackedWidget where
  widgets : List QWidget := []
  index : Option Nat := none
  deriving DecidableEq, Repr

namespace QStackedWidget

def currentIndex (s : QStackedWidget) : Option Nat := s.index

/-- The widget `currentWidget()`, `none` for a null pointer. -/
def currentWidget (s : QStackedWidget) : Option QWidget :=
  match s.index with
  | none => none
  | some i => s.widgets[i]?

/-- The position `indexOf(w)`. -/
def indexOf : List QWidget → QWidget → Option Nat
  | [], _ => none
  | x :: rest, w => if x = w then some 0 else (indexOf rest w).map (· + 1)

/-- The call `addWidget(w)`: appends, returns the position, and makes the
widget current when the stack was empty. -/
def addWidget (s : QStackedWidget) (w : QWidget) : QStackedWidget × Nat :=
  let idx := s.widgets.length
  ({ widgets := s.widgets ++ [w],
     index := match s.index with
       | none => some idx
       | some i => some i },
   idx)

/-- The call `setCurrentIndex(i)`: no effect when there is no widget at `i`. -/
def setCurrentIndex (s : QStackedWidget) (i : Nat) : QStackedWidget :=
  if i < s.widgets.length then { s with index := some i } else s

/-- The call `removeWidget(w)`, with the index bookkeeping of `QStackedLayout::takeAt`. -/
def removeWidget (s : QStackedWidget) (w : QWidget) : QStackedWidget :=
  match indexOf s.widgets w with
  | none => s
  | some i =>
    let list := s.widgets.eraseIdx i
    match s.index with
    | none => { widgets := list, index := none }
    | some cur =>
      if i = cur then
        if 0 < list.length then
          { widgets := list, index := some (if i = list.length then i - 1 else i) }
        else
          { widgets := list, index := none }
      else if i < cur then
        { widgets := list, index := some (cur - 1) }
      else
        { widgets := list, index := some cur }

end QStackedWidget

/-- A `QPointer<DebugImageView>`: the address of the object it guards. -/
structure QPointer where
  addr : Nat
  deriving DecidableEq, Repr

/-- The task `DebugImageView::ImageLoader`, run on a worker thread. -/
structure DebugImageView.ImageLoader where
  m_ptrOwner : QPointer
  m_filePath : String
  deriving DecidableEq, Repr

/-- The task `DebugImageView::ImageLoadResult`, run on the main thread. -/
structure DebugImageView.ImageLoadResult where
  m_ptrOwner : QPointer
  m_image : QImage
  deriving DecidableEq, Repr

/-- Modelled from the spec: `BackgroundExecutor.h` is not among the sources.
The queue of `ImageViewBase::backgroundExecutor()` is a black box that accepts
task objects and runs them on a worker thread; the tasks accepted are kept in
the order of their submission. -/
structure BackgroundExecutor where
  tasks : List DebugImageView.ImageLoader := []
  deriving DecidableEq, Repr

def BackgroundExecutor.enqueueTask (ex : BackgroundExecutor)
    (task : DebugImageView.ImageLoader) : BackgroundExecutor :=
  { tasks := ex.tasks ++ [task] }

/-- The state of a `DebugImageView`: the `QStackedWidget` it derives from and
its members. `m_imageViewFactory` is `none` for an empty `boost::function`. -/
structure DebugImageView where
  stack : QStackedWidget
  m_file : String
  m_imageViewFactory : Option (QImage → ImageView)
  m_isLive : Bool

namespace DebugImageView

/-- The member `m_pPlaceholderWidget`: it points to the `ProcessingIndicationWidget`. -/
def m_pPlaceholderWidget : QWidget := QWidget.ProcessingIndicationWidget

/-- The action `save_as` that `imageLoaded` creates. -/
def save_as : QAction := { text := "Save image as..." }

/-- The constructor. -/
def new (file : String) (image_view_factory : Option (QImage → ImageView)) : DebugImageView :=
  { stack := ((({} : QStackedWidget).addWidget m_pPlaceholderWidget)).1,
    m_file := file,
    m_imageViewFactory := image_view_factory,
    m_isLive := false }

def currentWidget (o : DebugImageView) : Option QWidget := o.stack.currentWidget

/-- The method `setLive`, for the object at address `this`: the object after
the call and the queue of the background executor after it. -/
def setLive (o : DebugImageView) (this : QPointer) (live : Bool) (ex : BackgroundExecutor) :
    DebugImageView × BackgroundExecutor :=
  if live && !o.m_isLive then
    ({ o with m_isLive := live },
      ex.enqueueTask { m_ptrOwner := this, m_filePath := o.m_file })
  else if !live && o.m_isLive then
    match o.currentWidget with
    | some wgt =>
      if wgt ≠ m_pPlaceholderWidget then
        ({ o with stack := o.stack.removeWidget wgt, m_isLive := live }, ex)
      else
        ({ o with m_isLive := live }, ex)
    | none => ({ o with m_isLive := live }, ex)
  else
    ({ o with m_isLive := live }, ex)

def imageLoaded (o : DebugImageView) (image : QImage) : DebugImageView :=
  if !o.m_isLive then
    o
  else if o.currentWidget = some m_pPlaceholderWidget then
    let image_view : ImageView :=
      match o.m_imageViewFactory with
      | none => BasicImageView image
      | some factory => factory image
    let image_view : ImageView :=
      if !o.m_file.isEmpty then
        (image_view.addAction save_as).setContextMenuPolicy ContextMenuPolicy.ActionsContextMenu
      else
        image_view
    let added := o.stack.addWidget (QWidget.view image_view)
    { o with stack := added.1.setCurrentIndex added.2 }
  else
    o

/-- The widget `imageLoaded` builds for `image`. -/
def builtView (o : DebugImageView) (image : QImage) : ImageView :=
  let image_view : ImageView :=
    match o.m_imageViewFactory with
    | none => BasicImageView image
    | some factory => factory image
  if !o.m_file.isEmpty then
    (image_view.addAction save_as).setContextMenuPolicy ContextMenuPolicy.ActionsContextMenu
  else
    image_view

/-- The worker-thread body `ImageLoader::operator()`. -/
def ImageLoader.call (task : ImageLoader) (files : ImageFiles) : ImageLoadResult :=
  let image := files task.m_filePath
  { m_ptrOwner := task.m_ptrOwner, m_image := image }

end DebugImageView

/-- The main thread: the objects by address, `none` once destroyed, the queue
of the background executor, and a record of the calls of `imageLoaded` made so
far (the address of the owner and the image passed). -/
structure MainThread where
  objects : List (Option DebugImageView) := []
  executor : BackgroundExecutor := {}
  imageLoadedCalls : List (Nat × QImage) := []

namespace MainThread

/-- What a `QPointer` converts to: the object, or nothing when it was destroyed. -/
def resolve (w : MainThread) (p : QPointer) : Option DebugImageView :=
  match w.objects[p.addr]? with
  | some (some o) => some o
  | _ => none

/-- Constructing a `DebugImageView` at a fresh address. -/
def create (w : MainThread) (file : String)
    (image_view_factory : Option (QImage → ImageView)) : MainThread × QPointer :=
  ({ w with objects := w.objects ++ [some (DebugImageView.new file image_view_factory)] },
    { addr := w.objects.length })

/-- Destroying the object at `p`. -/
def destroy (w : MainThread) (p : QPointer) : MainThread :=
  { w with objects := w.objects.set p.addr none }

/-- Calling `setLive(live)` on the object at `p`. -/
def setLive (w : MainThread) (p : QPointer) (live : Bool) : MainThread :=
  match w.resolve p with
  | none => w
  | some o =>
    let r := o.setLive p live w.executor
    { w with objects := w.objects.set p.addr (some r.1), executor := r.2 }

end MainThread

/-- The main-thread body `ImageLoadResult::operator()`. -/
def DebugImageView.ImageLoadResult.call (r : DebugImageView.ImageLoadResult)
    (w : MainThread) : MainThread :=
  match w.resolve r.m_ptrOwner with
  | some owner =>
    { w with
      objects := w.objects.set r.m_ptrOwner.addr (some (owner.imageLoaded r.m_image)),
      imageLoadedCalls := w.imageLoadedCalls ++ [(r.m_ptrOwner.addr, r.m_image)] }
  | none => w

/-- Running delivery tasks one after the other. -/
def MainThread.deliverAll (w : MainThread) :
    List DebugImageView.ImageLoadResult → MainThread
  | [] => w
  | r :: rs => MainThread.deliverAll (r.call w) rs

/-! ## The owner as a state machine

The calls that reach a `DebugImageView` after its construction are `setLive`
and `imageLoaded`; a history is a list of them. -/

namespace DebugImageView

/-- A call on the owner. -/
inductive Event where
  | setLive (live : Bool) : Event
  | imageLoaded (image : QImage) : Event
  deriving DecidableEq, Repr

/-- One call on the owner at address `this`: the owner and the queue of the
background executor after it. -/
def step (this : QPointer) (st : DebugImageView × BackgroundExecutor) :
    Event → DebugImageView × BackgroundExecutor
  | Event.setLive live => st.1.setLive this live st.2
  | Event.imageLoaded image => (st.1.imageLoaded image, st.2)

/-- The owner and the queue after a history of calls. -/
def runEvents (this : QPointer) (st : DebugImageView × BackgroundExecutor) :
    List Event → DebugImageView × BackgroundExecutor
  | [] => st
  | e :: es => runEvents this (step this st e) es

/-- The stack holds the placeholder alone, which is current, or, in a live
owner, the placeholder and one image view, which is current. -/
def StackOk (o : DebugImageView) : Prop :=
  o.stack = { widgets := [m_pPlaceholderWidget], index := some 0 } ∨
  (o.m_isLive = true ∧
    ∃ v : ImageView,
      o.stack = { widgets := [m_pPlaceholderWidget, QWidget.view v], index := some 1 })

/-- Delivering the images of a list of load results to the owner, in order. -/
def deliverImages (o : DebugImageView) : List QImage → DebugImageView
  | [] => o
  | image :: rest => deliverImages (o.imageLoaded image) rest

end DebugImageView

/-! ## The save-as action of `imageLoaded`

The handler connected to `save_as` talks to the file dialog, the file system
and message boxes. What they answer is given by a `SaveAsEnv`; what the
handler does to them is returned as the list of its effects, in order. -/

namespace QString

/-- The call `trimmed()`: white space removed from both ends. -/
def trimmed (s : String) : String :=
  String.mk ((s.data.dropWhile Char.isWhitespace).reverse.dropWhile Char.isWhitespace).reverse

/-- The call `toLower()`. -/
def toLower (s : String) : String := String.mk (s.data.map Char.toLower)

/-- The call `right(n)`: the last `n` characters, the whole string when it is shorter. -/
def right (s : String) (n : Nat) : String := String.mk (s.data.drop (s.data.length - n))

end QString

/-- The buttons of the overwrite question. -/
inductive StandardButton where
  | Yes : StandardButton
  | Cancel : StandardButton
  deriving DecidableEq, Repr

/-- What the surroundings of the save-as handler answer. -/
structure SaveAsEnv where
  /-- The name `QFileDialog::getSaveFileName` returns, empty when the dialog is dismissed. -/
  chosen : String
  /-- The result of `QFile::exists`. -/
  fileExists : String → Bool
  /-- The button `QMessageBox::question` returns. -/
  answer : StandardButton
  /-- The result of `QFile::remove`. -/
  removeOk : String → Bool
  /-- The result of `QFile::copy`. -/
  copyOk : String → String → Bool

/-- An effect of the save-as handler. -/
inductive SaveAsEffect where
  | question (fileName : String) : SaveAsEffect
  | remove (fileName : String) (ok : Bool) : SaveAsEffect
  | copy (source destination : String) (ok : Bool) : SaveAsEffect
  | critical (text : String) : SaveAsEffect
  deriving DecidableEq, Repr

namespace DebugImageView

/-- The name the handler saves to and the flag `already_prompted_if_exists`,
for the trimmed, non-empty name `new_filename`. -/
def save_as_destination (new_filename : String) : String × Bool :=
  if QString.right (QString.toLower new_filename) 4 ≠ ".png" then
    (new_filename ++ ".png", false)
  else
    (new_filename, true)

/-- The last step of the handler: `QFile::copy(m_file.get(), new_filename)`. -/
def save_as_copy (o : DebugImageView) (env : SaveAsEnv) (new_filename : String) :
    List SaveAsEffect :=
  if !env.copyOk o.m_file new_filename then
    [SaveAsEffect.copy o.m_file new_filename false, SaveAsEffect.critical "Can't copy file"]
  else
    [SaveAsEffect.copy o.m_file new_filename true]

/-- The steps of the handler from `QFile::remove(new_filename)` on. -/
def save_as_remove (o : DebugImageView) (env : SaveAsEnv) (new_filename : String) :
    List SaveAsEffect :=
  if !env.removeOk new_filename then
    [SaveAsEffect.remove new_filename false, SaveAsEffect.critical "Can't remove file"]
  else
    SaveAsEffect.remove new_filename true :: o.save_as_copy env new_filename

/-- The handler connected to `save_as`: the effects of one trigger of the action. -/
def save_as_triggered (o : DebugImageView) (env : SaveAsEnv) : List SaveAsEffect :=
  let new_filename := env.chosen
  let new_filename := QString.trimmed new_filename
  if !new_filename.isEmpty then
    let new_filename_and_flag := save_as_destination new_filename
    let new_filename := new_filename_and_flag.1
    let already_prompted_if_exists := new_filename_and_flag.2
    if env.fileExists new_filename then
      if !already_prompted_if_exists then
        if env.answer = StandardButton.Cancel then
          [SaveAsEffect.question new_filename]
        else
          SaveAsEffect.question new_filename :: o.save_as_remove env new_filename
      else
        o.save_as_remove env new_filename
    else
      o.save_as_copy env new_filename
  else
    []

end DebugImageView

/-! ## `deskew::ApplyDialog`

A `std::set<PageId>` is embedded as the list of its elements in iteration
order, which is ascending. The page services the dialog calls
(`PageSequence`, `PageRange`) are not among the sources and are taken as
given functions. -/

namespace deskew

/-- The elements of a `std::set<K>` in iteration order. -/
abbrev StdSet (K : Type) := List K

namespace StdSet

variable {K : Type} [LinearOrder K]

/-- The class invariant of `std::set`: elements strictly ascending. -/
def Ordered (s : StdSet K) : Prop := s.Pairwise (fun a b => a < b)

instance (s : StdSet K) : Decidable (Ordered s) := by
  unfold Ordered
  infer_instance

/-- The test `find(k) != end()`. -/
def contains (s : StdSet K) (k : K) : Bool := decide (k ∈ s)

/-- The call `insert(k)`: no effect when `k` is an element. -/
def insert : StdSet K → K → StdSet K
  | [], k => [k]
  | x :: rest, k =>
    if x < k then x :: insert rest k
    else if k < x then k :: x :: rest
    else x :: rest

end StdSet

/-- The elements of `l` at the positions `j` for which `i + j` is even. -/
def StdSet.alternate {K : Type} : List K → Nat → List K
  | [], _ => []
  | x :: rest, i => if i % 2 = 0 then x :: alternate rest (i + 1) else alternate rest (i + 1)

/-- The part of `PageRange` the dialog uses: the pages of the range and its
`selectEveryOther`, taken as a given function. -/
structure PageRange (PageId : Type) where
  pages : List PageId
  selectEveryOther : PageId → StdSet PageId

/-- The part of `PageSequence` the dialog uses, each selection taken as a
given function. -/
structure PageSequence (PageId : Type) where
  selectAll : StdSet PageId
  selectPagePlusFollowers : PageId → StdSet PageId
  selectEveryOther : PageId → StdSet PageId

/-- The radio buttons of `m_pScopeGroup`; the group lets one be checked at a
time. `thisPageRB` is the button `onSubmit` does not handle. -/
inductive ScopeButton where
  | thisPageRB : ScopeButton
  | allPagesRB : ScopeButton
  | thisPageAndFollowersRB : ScopeButton
  | everyOtherRB : ScopeButton
  | thisEveryOtherRB : ScopeButton
  | selectedPagesRB : ScopeButton
  | everyOtherSelectedRB : ScopeButton
  deriving DecidableEq, Repr

/-- What `onSubmit` does to the outside: the signal it emits, and `accept()`. -/
inductive Emitted (PageId : Type) where
  | appliedToAllPages (pages : StdSet PageId) : Emitted PageId
  | appliedTo (pages : StdSet PageId) : Emitted PageId
  | accept : Emitted PageId

/-- The state of an `ApplyDialog`: its members and the checked radio button. -/
structure ApplyDialog (PageId : Type) where
  m_pages : PageSequence PageId
  m_curPage : PageId
  m_selectedPages : StdSet PageId
  m_selectedRanges : List (PageRange PageId)
  checked : ScopeButton

namespace ApplyDialog

variable {PageId : Type} [LinearOrder PageId]

/-- The loop of the `thisEveryOtherRB` branch: `it` runs over `tmp` from
`begin()`, `i` counts from 0, and the elements at even `i` are inserted. -/
def thisEveryOtherLoop : List PageId → Nat → StdSet PageId → StdSet PageId
  | [], _, pages => pages
  | page :: it, i, pages =>
    thisEveryOtherLoop it (i + 1) (if i % 2 = 0 then StdSet.insert pages page else pages)

/-- The set `pages` of the `thisEveryOtherRB` branch. -/
def thisEveryOther (d : ApplyDialog PageId) : StdSet PageId :=
  let tmp := d.m_pages.selectPagePlusFollowers d.m_curPage
  thisEveryOtherLoop tmp 0 []

/-- The inner loop of the `everyOtherSelectedRB` branch, over the pages of one range. -/
def collectRange (tmp : StdSet PageId) (pages : StdSet PageId) (range : PageRange PageId) :
    StdSet PageId :=
  range.pages.foldl
    (fun pages page => if StdSet.contains tmp page then StdSet.insert pages page else pages)
    pages

/-- The set `pages` of the `everyOtherSelectedRB` branch. -/
def everyOtherSelected (d : ApplyDialog PageId) : StdSet PageId :=
  if d.m_selectedRanges.length = 1 then
    match d.m_selectedRanges.head? with
    | some front => front.selectEveryOther d.m_curPage
    | none => []
  else
    let tmp := d.m_pages.selectEveryOther d.m_curPage
    d.m_selectedRanges.foldl (collectRange tmp) []

def onSubmit (d : ApplyDialog PageId) : List (Emitted PageId) :=
  match d.checked with
  | ScopeButton.allPagesRB =>
    [Emitted.appliedToAllPages d.m_pages.selectAll, Emitted.accept]
  | ScopeButton.thisPageAndFollowersRB =>
    [Emitted.appliedTo (d.m_pages.selectPagePlusFollowers d.m_curPage), Emitted.accept]
  | ScopeButton.selectedPagesRB =>
    [Emitted.appliedTo d.m_selectedPages, Emitted.accept]
  | ScopeButton.everyOtherRB =>
    [Emitted.appliedTo (d.m_pages.selectEveryOther d.m_curPage), Emitted.accept]
  | ScopeButton.thisEveryOtherRB =>
    [Emitted.appliedTo d.thisEveryOther, Emitted.accept]
  | ScopeButton.everyOtherSelectedRB =>
    [Emitted.appliedTo d.everyOtherSelected, Emitted.accept]
  | ScopeButton.thisPageRB => [Emitted.accept]

/-- An instance of the selection `selectEveryOther` for examples: the pages of
`pages` whose position differs from the position of `base` by an even number,
none when `base` is not among them. -/
def everyOtherByParity (pages : List Nat) (base : Nat) : StdSet Nat :=
  match pages.indexOf? base with
  | none => []
  | some b =>
    ((pages.enum.filter (fun ip => (ip.1 + b) % 2 = 0)).map Prod.snd).foldl StdSet.insert []

/-- An instance of `PageRange` for examples. -/
def exampleRange (pages : List Nat) : PageRange Nat :=
  { pages := pages, selectEveryOther := everyOtherByParity pages }

/-- An instance of `PageSequence` for examples. -/
def exampleSequence (pages : List Nat) : PageSequence Nat :=
  { selectAll := pages.foldl StdSet.insert [],
    selectPagePlusFollowers := fun base =>
      (pages.dropWhile (fun p => p ≠ base)).foldl StdSet.insert [],
    selectEveryOther := everyOtherByParity pages }

/-- A dialog for examples: the pages 1 to 8, the current page 3, and the
ranges {1, 2, 3} and {5} selected. -/
def exampleTwoRanges : ApplyDialog Nat :=
  { m_pages := exampleSequence [1, 2, 3, 4, 5, 6, 7, 8],
    m_curPage := 3,
    m_selectedPages := [1, 2, 3, 5],
    m_selectedRanges := [exampleRange [1, 2, 3], exampleRange [5]],
    checked := ScopeButton.everyOtherSelectedRB }

/-- A dialog for examples: the pages 1 to 8, the current page 3, and the
range {1, 2, 3} selected. -/
def exampleOneRange : ApplyDialog Nat :=
  { m_pages := exampleSequence [1, 2, 3, 4, 5, 6, 7, 8],
    m_curPage := 3,
    m_selectedPages := [1, 2, 3],
    m_selectedRanges := [exampleRange [1, 2, 3]],
    checked := ScopeButton.everyOtherSelectedRB }

/-- A dialog for examples: the pages 1 to 8, the current page 3, nothing
selected, and the scope "this page and every other following". -/
def exampleThisEveryOther : ApplyDialog Nat :=
  { m_pages := exampleSequence [1, 2, 3, 4, 5, 6, 7, 8],
    m_curPage := 3,
    m_selectedPages := [],
    m_selectedRanges := [],
    checked := ScopeButton.thisEveryOtherRB }

end ApplyDialog

end deskew

/-! ## The two-step update the single-lookup setters stand for -/

namespace publishing

/-- The naive update of one field: read the record of the key with `getParams`,
replace the one field, and store the record with `setParams`. -/
def Settings.setFieldTwoStep {PageId : Type} [LinearOrder PageId] (s : Settings PageId)
    (page_id : PageId) (w : FieldValue) : Settings PageId :=
  s.setParams page_id (w.applyTo (s.getParams page_id))

end publishing

namespace publishing

namespace StdMap

variable {K V : Type} [LinearOrder K]

theorem lower_bound_le (m : StdMap K V) (k : K) : lower_bound m k ≤ m.length := by
  induction m with
  | nil => simp [lower_bound]
  | cons e rest ih =>
    by_cases hlt : e.1 < k
    · simp [lower_bound, key_comp, hlt, ih]
    · simp [lower_bound, key_comp, hlt]

theorem before_lower_bound (m : StdMap K V) (k : K) :
    (match lower_bound m k with
      | 0 => true
      | n + 1 =>
        match m[n]? with
        | some e => key_comp e.1 k
        | none => false) = true := by
  induction m with
  | nil => simp [lower_bound]
  | cons e rest ih =>
    by_cases hlt : e.1 < k
    · have hlb : lower_bound (e :: rest) k = lower_bound rest k + 1 := by
        simp [lower_bound, key_comp, hlt]
      rw [hlb]
      cases hn : lower_bound rest k with
      | zero => simp [key_comp, hlt]
      | succ n =>
        rw [hn] at ih
        simpa using ih
    · have hlb : lower_bound (e :: rest) k = 0 := by
        simp [lower_bound, key_comp, hlt]
      rw [hlb]

theorem hintFits_lower_bound (m : StdMap K V) (k : K)
    (h : endOrGreater m (lower_bound m k) k = true) :
    hintFits m (lower_bound m k) k = true := by
  unfold hintFits
  rw [Bool.and_eq_true]
  refine ⟨before_lower_bound m k, ?_⟩
  unfold endOrGreater at h
  cases hr : m[lower_bound m k]? with
  | none =>
    have hle := lower_bound_le m k
    have hge : m.length ≤ lower_bound m k := List.getElem?_eq_none_iff.mp hr
    simp [end_]
    omega
  | some e =>
    rw [hr] at h
    simpa using h

theorem upsert_eq (m : StdMap K V) (k : K) (c : V) (u : V → V) :
    (if endOrGreater m (lower_bound m k) k = true then
        insert_hint m (lower_bound m k) (k, c)
      else mutate m (lower_bound m k) u) = upsert m k c u := by
  induction m with
  | nil => simp [endOrGreater, lower_bound, insert_hint, hintFits, splice, upsert, end_]
  | cons e rest ih =>
    by_cases hlt : e.1 < k
    · have hlb : lower_bound (e :: rest) k = lower_bound rest k + 1 := by
        simp [lower_bound, key_comp, hlt]
      have hg : endOrGreater (e :: rest) (lower_bound rest k + 1) k
          = endOrGreater rest (lower_bound rest k) k := by
        simp [endOrGreater]
      by_cases ht : endOrGreater rest (lower_bound rest k) k = true
      · have hf := hintFits_lower_bound (e :: rest) k (by rw [hlb, hg]; exact ht)
        have hf' := hintFits_lower_bound rest k ht
        rw [hlb] at hf
        rw [hlb, hg, if_pos ht]
        rw [if_pos ht] at ih
        simp only [insert_hint, hf, hf', if_true] at ih ⊢
        simp [splice, upsert, hlt, ← ih]
      · rw [hlb, hg, if_neg ht]
        rw [if_neg ht] at ih
        simp [mutate, upsert, hlt, ← ih]
    · have hlb : lower_bound (e :: rest) k = 0 := by
        simp [lower_bound, key_comp, hlt]
      rw [hlb]
      by_cases hgt : k < e.1
      · simp [endOrGreater, key_comp, hgt, insert_hint, hintFits, splice, upsert, hlt]
      · simp [endOrGreater, key_comp, hgt, mutate, upsert, hlt]

theorem find_cons (e : K × V) (rest : StdMap K V) (k : K) :
    find (e :: rest) k =
      if e.1 < k then find rest k + 1 else if k < e.1 then rest.length + 1 else 0 := by
  by_cases hlt : e.1 < k
  · by_cases ht : endOrGreater rest (lower_bound rest k) k = true
    · simp [find, lower_bound, key_comp, hlt, endOrGreater, end_] at ht ⊢
      simp [ht]
    · simp [find, lower_bound, key_comp, hlt, endOrGreater, end_] at ht ⊢
      simp [ht]
  · by_cases hgt : k < e.1
    · simp [find, lower_bound, key_comp, hlt, hgt, endOrGreater, end_]
    · simp [find, lower_bound, key_comp, hlt, hgt, endOrGreater, end_]

theorem find_of_lookup_none (m : StdMap K V) (k : K) (h : lookup m k = none) :
    find m k = m.length := by
  induction m with
  | nil => simp [find, lower_bound, endOrGreater, end_]
  | cons e rest ih =>
    rw [find_cons]
    by_cases hlt : e.1 < k
    · simp only [lookup, hlt, if_true] at h
      simp [hlt, ih h]
    · by_cases hgt : k < e.1
      · simp [hlt, hgt]
      · simp [lookup, hlt, hgt] at h

theorem find_of_lookup_some (m : StdMap K V) (k : K) (v : V) (h : lookup m k = some v) :
    find m k ≠ m.length ∧ m[find m k]? = some (k, v) := by
  induction m with
  | nil => simp [lookup] at h
  | cons e rest ih =>
    rw [find_cons]
    by_cases hlt : e.1 < k
    · simp only [lookup, hlt, if_true] at h
      have := ih h
      simp [hlt, this]
    · by_cases hgt : k < e.1
      · simp [lookup, hlt, hgt] at h
      · have hk : e.1 = k := le_antisymm (not_lt.mp hgt) (not_lt.mp hlt)
        simp [lookup, hlt, hgt] at h
        simp [hlt, hgt, ← hk, ← h]

theorem lookup_upsert_self (m : StdMap K V) (k : K) (c : V) (u : V → V) :
    lookup (upsert m k c u) k =
      some (match lookup m k with
        | none => c
        | some v => u v) := by
  induction m with
  | nil => simp [upsert, lookup]
  | cons e rest ih =>
    by_cases hlt : e.1 < k
    · simp [upsert, lookup, hlt, ih]
    · by_cases hgt : k < e.1
      · simp [upsert, lookup, hlt, hgt]
      · simp [upsert, lookup, hlt, hgt]

theorem lookup_upsert_of_ne (m : StdMap K V) (k k' : K) (c : V) (u : V → V) (hne : k' ≠ k) :
    lookup (upsert m k c u) k' = lookup m k' := by
  induction m with
  | nil =>
    rcases lt_or_gt_of_ne hne with h | h
    · simp [upsert, lookup, h, not_lt_of_gt h]
    · simp [upsert, lookup, h]
  | cons e rest ih =>
    by_cases hlt : e.1 < k
    · by_cases h1 : e.1 < k'
      · simp [upsert, lookup, hlt, h1, ih]
      · simp [upsert, lookup, hlt, h1]
    · by_cases hgt : k < e.1
      · rcases lt_or_gt_of_ne hne with h | h
        · have h2 : k' < e.1 := lt_trans h hgt
          simp [upsert, lookup, hlt, hgt, h, not_lt_of_gt h, h2, not_lt_of_gt h2]
        · simp [upsert, lookup, hlt, hgt, h]
      · have hk : e.1 = k := le_antisymm (not_lt.mp hgt) (not_lt.mp hlt)
        rcases lt_or_gt_of_ne hne with h | h
        · simp [upsert, lookup, hlt, hgt, hk, h, not_lt_of_gt h]
        · simp [upsert, lookup, hlt, hgt, hk, h]

theorem entriesFor_upsert_of_ne (m : StdMap K V) (k k' : K) (c : V) (u : V → V)
    (hne : k' ≠ k) : entriesFor (upsert m k c u) k' = entriesFor m k' := by
  induction m with
  | nil => simp [upsert, entriesFor, Ne.symm hne]
  | cons e rest ih =>
    by_cases hlt : e.1 < k
    · simp only [entriesFor] at ih
      simp [upsert, entriesFor, hlt, List.filter_cons, ih]
    · by_cases hgt : k < e.1
      · simp [upsert, entriesFor, hlt, hgt, List.filter_cons, Ne.symm hne]
      · have hk : e.1 = k := le_antisymm (not_lt.mp hgt) (not_lt.mp hlt)
        simp [upsert, entriesFor, hlt, hgt, List.filter_cons, hk, Ne.symm hne]

theorem length_upsert (m : StdMap K V) (k : K) (c : V) (u : V → V) :
    (upsert m k c u).length = m.length + if (lookup m k).isSome then 0 else 1 := by
  induction m with
  | nil => simp [upsert, lookup]
  | cons e rest ih =>
    by_cases hlt : e.1 < k
    · simp only [upsert, lookup, hlt, if_true, List.length_cons, ih]
      omega
    · by_cases hgt : k < e.1
      · simp [upsert, lookup, hlt, hgt]
      · simp [upsert, lookup, hlt, hgt]

theorem lookup_of_entriesFor_nil (m : StdMap K V) (k : K) (h : entriesFor m k = []) :
    lookup m k = none := by
  induction m with
  | nil => simp [lookup]
  | cons e rest ih =>
    have hne : e.1 ≠ k := by
      intro hk
      simp [entriesFor, List.filter_cons, hk] at h
    have hrest : entriesFor rest k = [] := by
      simpa [entriesFor, List.filter_cons, hne] using h
    by_cases hlt : e.1 < k
    · simp [lookup, hlt, ih hrest]
    · have hgt : k < e.1 := lt_of_le_of_ne (not_lt.mp hlt) (Ne.symm hne)
      simp [lookup, hlt, hgt]

theorem entriesFor_of_lt (m : StdMap K V) (k : K) (h : ∀ x ∈ m, k < x.1) :
    entriesFor m k = [] := by
  simp only [entriesFor, List.filter_eq_nil_iff]
  intro x hx
  have := h x hx
  simp [ne_of_gt this]

theorem entriesFor_eq (m : StdMap K V) (k : K) (hm : Ordered m) :
    entriesFor m k = match lookup m k with
      | none => []
      | some v => [(k, v)] := by
  induction m with
  | nil => simp [entriesFor, lookup]
  | cons e rest ih =>
    have hrest : Ordered rest := (List.pairwise_cons.mp hm).2
    have hgtall : ∀ x ∈ rest, e.1 < x.1 := (List.pairwise_cons.mp hm).1
    by_cases hlt : e.1 < k
    · have hne : e.1 ≠ k := ne_of_lt hlt
      have := ih hrest
      simp only [entriesFor] at this
      simp [entriesFor, List.filter_cons, hne, lookup, hlt, this]
    · by_cases hgt : k < e.1
      · have hne : e.1 ≠ k := ne_of_gt hgt
        have h0 : entriesFor rest k = [] :=
          entriesFor_of_lt rest k (fun x hx => lt_trans hgt (hgtall x hx))
        simp only [entriesFor] at h0
        simp [entriesFor, List.filter_cons, hne, lookup, hlt, hgt, h0]
      · have hk : e.1 = k := le_antisymm (not_lt.mp hgt) (not_lt.mp hlt)
        have h0 : entriesFor rest k = [] :=
          entriesFor_of_lt rest k (fun x hx => hk ▸ hgtall x hx)
        simp only [entriesFor] at h0
        simp [entriesFor, List.filter_cons, hk, lookup, h0]
        exact Prod.ext hk rfl

theorem keys_upsert (m : StdMap K V) (k : K) (c : V) (u : V → V) :
    ∀ x ∈ upsert m k c u, x.1 = k ∨ ∃ y ∈ m, y.1 = x.1 := by
  induction m with
  | nil => simp [upsert]
  | cons e rest ih =>
    intro x hx
    by_cases hlt : e.1 < k
    · simp only [upsert, hlt, if_true, List.mem_cons] at hx
      rcases hx with rfl | hx
      · exact Or.inr ⟨x, by simp, rfl⟩
      · rcases ih x hx with h | ⟨y, hy, hyx⟩
        · exact Or.inl h
        · exact Or.inr ⟨y, by simp [hy], hyx⟩
    · by_cases hgt : k < e.1
      · simp only [upsert, hlt, hgt, if_true, if_false, List.mem_cons] at hx
        rcases hx with rfl | rfl | hx
        · exact Or.inl rfl
        · exact Or.inr ⟨x, by simp, rfl⟩
        · exact Or.inr ⟨x, by simp [hx], rfl⟩
      · simp only [upsert, hlt, hgt, if_false, List.mem_cons] at hx
        rcases hx with rfl | hx
        · exact Or.inr ⟨e, by simp, rfl⟩
        · exact Or.inr ⟨x, by simp [hx], rfl⟩

theorem ordered_upsert (m : StdMap K V) (k : K) (c : V) (u : V → V) (hm : Ordered m) :
    Ordered (upsert m k c u) := by
  induction m with
  | nil => simp [upsert, Ordered]
  | cons e rest ih =>
    have hrest : Ordered rest := (List.pairwise_cons.mp hm).2
    have hgtall : ∀ x ∈ rest, e.1 < x.1 := (List.pairwise_cons.mp hm).1
    by_cases hlt : e.1 < k
    · simp only [upsert, hlt, if_true]
      refine List.pairwise_cons.mpr ⟨?_, ih hrest⟩
      intro x hx
      rcases keys_upsert rest k c u x hx with h | ⟨y, hy, hyx⟩
      · rw [h]; exact hlt
      · rw [← hyx]; exact hgtall y hy
    · by_cases hgt : k < e.1
      · simp only [upsert, hlt, hgt, if_true, if_false]
        refine List.pairwise_cons.mpr ⟨?_, hm⟩
        intro x hx
        rcases List.mem_cons.mp hx with rfl | hx
        · exact hgt
        · exact lt_trans hgt (hgtall x hx)
      · simp only [upsert, hlt, hgt, if_false]
        exact List.pairwise_cons.mpr ⟨hgtall, hrest⟩

end StdMap

namespace Settings

variable {PageId : Type} [LinearOrder PageId]

theorem setDpi_eq (s : Settings PageId) (k : PageId) (d : Dpi) :
    (s.setDpi k d).m_perPageParams =
      StdMap.upsert s.m_perPageParams k (FieldValue.applyTo (FieldValue.dpi d) {})
        (FieldValue.applyTo (FieldValue.dpi d)) := by
  rw [← StdMap.upsert_eq]
  unfold setDpi
  by_cases h : StdMap.endOrGreater s.m_perPageParams
      (StdMap.lower_bound s.m_perPageParams k) k = true
  · simp [h, FieldValue.applyTo]
  · simp only [h]
    rfl

theorem setEncoderState_eq (s : Settings PageId) (k : PageId) (val : QJSValue) :
    (s.setEncoderState k val).m_perPageParams =
      StdMap.upsert s.m_perPageParams k (FieldValue.applyTo (FieldValue.encoderState val) {})
        (FieldValue.applyTo (FieldValue.encoderState val)) := by
  rw [← StdMap.upsert_eq]
  unfold setEncoderState
  by_cases h : StdMap.endOrGreater s.m_perPageParams
      (StdMap.lower_bound s.m_perPageParams k) k = true
  · simp [h, FieldValue.applyTo]
  · simp only [h]
    rfl

theorem setConverterState_eq (s : Settings PageId) (k : PageId) (val : QJSValue) :
    (s.setConverterState k val).m_perPageParams =
      StdMap.upsert s.m_perPageParams k (FieldValue.applyTo (FieldValue.converterState val) {})
        (FieldValue.applyTo (FieldValue.converterState val)) := by
  rw [← StdMap.upsert_eq]
  unfold setConverterState
  by_cases h : StdMap.endOrGreater s.m_perPageParams
      (StdMap.lower_bound s.m_perPageParams k) k = true
  · simp [h, FieldValue.applyTo]
  · simp only [h]
    rfl

theorem setField_eq (s : Settings PageId) (k : PageId) (w : FieldValue) :
    (s.setField k w).m_perPageParams =
      StdMap.upsert s.m_perPageParams k (w.applyTo {}) w.applyTo := by
  cases w with
  | dpi d => exact setDpi_eq s k d
  | encoderState val => exact setEncoderState_eq s k val
  | converterState val => exact setConverterState_eq s k val

theorem setParams_eq (s : Settings PageId) (k : PageId) (r : Params) :
    (s.setParams k r).m_perPageParams =
      StdMap.upsert s.m_perPageParams k r (fun _ => r) := by
  rw [← StdMap.upsert_eq]
  unfold setParams Utils.mapSetValue
  by_cases h : StdMap.endOrGreater s.m_perPageParams
      (StdMap.lower_bound s.m_perPageParams k) k = true
  · simp [h]
  · simp [h]

theorem getParams_eq (s : Settings PageId) (k : PageId) :
    s.getParams k = (StdMap.lookup s.m_perPageParams k).getD {} := by
  unfold getParams
  cases h : StdMap.lookup s.m_perPageParams k with
  | none => simp [StdMap.find_of_lookup_none _ _ h, StdMap.end_]
  | some v =>
    have := StdMap.find_of_lookup_some _ _ _ h
    simp [this.1, this.2, StdMap.end_]

theorem dpi_eq (s : Settings PageId) (k : PageId) :
    s.dpi k = (s.getParams k).outputDpi := by
  rw [getParams_eq]
  unfold dpi
  cases h : StdMap.lookup s.m_perPageParams k with
  | none => simp [StdMap.find_of_lookup_none _ _ h, StdMap.end_, Params.outputDpi]
  | some v =>
    have := StdMap.find_of_lookup_some _ _ _ h
    simp [this.1, this.2, StdMap.end_]

theorem encoderState_eq (s : Settings PageId) (k : PageId) :
    s.encoderState k = (s.getParams k).encoderState := by
  rw [getParams_eq]
  unfold encoderState
  cases h : StdMap.lookup s.m_perPageParams k with
  | none => simp [StdMap.find_of_lookup_none _ _ h, StdMap.end_, Params.encoderState]
  | some v =>
    have := StdMap.find_of_lookup_some _ _ _ h
    simp [this.1, this.2, StdMap.end_]

theorem converterState_eq (s : Settings PageId) (k : PageId) :
    s.converterState k = (s.getParams k).converterState := by
  rw [getParams_eq]
  unfold converterState
  cases h : StdMap.lookup s.m_perPageParams k with
  | none => simp [StdMap.find_of_lookup_none _ _ h, StdMap.end_, Params.converterState]
  | some v =>
    have := StdMap.find_of_lookup_some _ _ _ h
    simp [this.1, this.2, StdMap.end_]

theorem wf_new : (new : Settings PageId).WF := by
  simp [WF, new, StdMap.Ordered]

theorem wf_setField (s : Settings PageId) (hs : s.WF) (k : PageId) (w : FieldValue) :
    (s.setField k w).WF := by
  unfold WF
  rw [setField_eq]
  exact StdMap.ordered_upsert _ _ _ _ hs

theorem wf_setParams (s : Settings PageId) (hs : s.WF) (k : PageId) (r : Params) :
    (s.setParams k r).WF := by
  unfold WF
  rw [setParams_eq]
  exact StdMap.ordered_upsert _ _ _ _ hs

theorem wf_call (s : Settings PageId) (hs : s.WF) (c : Call PageId) : (s.call c).1.WF := by
  cases c with
  | clear => simp [call, clear, WF, StdMap.Ordered]
  | performRelinking r => exact hs
  | getParams k => exact hs
  | setParams k r => exact wf_setParams s hs k r
  | setDpi k d => exact wf_setField s hs k (FieldValue.dpi d)
  | setEncoderState k v => exact wf_setField s hs k (FieldValue.encoderState v)
  | setConverterState k v => exact wf_setField s hs k (FieldValue.converterState v)
  | dpi k => exact hs
  | encoderState k => exact hs
  | converterState k => exact hs

theorem wf_run (s : Settings PageId) (hs : s.WF) (cs : List (Call PageId)) : (s.run cs).WF := by
  induction cs generalizing s with
  | nil => exact hs
  | cons c cs ih => exact ih _ (wf_call s hs c)

theorem getParams_setField_self (s : Settings PageId) (k : PageId) (w : FieldValue) :
    (s.setField k w).getParams k = w.applyTo (s.getParams k) := by
  rw [getParams_eq, getParams_eq, setField_eq, StdMap.lookup_upsert_self]
  cases StdMap.lookup s.m_perPageParams k <;> rfl

theorem getParams_setField_of_ne (s : Settings PageId) (k k' : PageId) (w : FieldValue)
    (hne : k' ≠ k) : (s.setField k w).getParams k' = s.getParams k' := by
  rw [getParams_eq, getParams_eq, setField_eq, StdMap.lookup_upsert_of_ne _ _ _ _ _ hne]

theorem entriesFor_setField_of_ne (s : Settings PageId) (k k' : PageId) (w : FieldValue)
    (hne : k' ≠ k) : (s.setField k w).entriesFor k' = s.entriesFor k' := by
  unfold entriesFor
  rw [setField_eq, StdMap.entriesFor_upsert_of_ne _ _ _ _ _ hne]

theorem entriesFor_setField_self (s : Settings PageId) (hs : s.WF) (k : PageId)
    (w : FieldValue) : (s.setField k w).entriesFor k = [(k, w.applyTo (s.getParams k))] := by
  have h := StdMap.entriesFor_eq _ k (wf_setField s hs k w)
  unfold entriesFor
  rw [h, setField_eq, StdMap.lookup_upsert_self, getParams_eq]
  cases StdMap.lookup s.m_perPageParams k <;> rfl

theorem size_setField (s : Settings PageId) (k : PageId) (w : FieldValue) :
    (s.setField k w).size =
      s.size + if (StdMap.lookup s.m_perPageParams k).isSome then 0 else 1 := by
  unfold size
  rw [setField_eq, StdMap.length_upsert]

theorem getParams_of_absent (s : Settings PageId) (k : PageId) (h : s.entriesFor k = []) :
    s.getParams k = {} := by
  rw [getParams_eq, StdMap.lookup_of_entriesFor_nil _ _ h]
  rfl

theorem entriesFor_call_of_not_writes (s : Settings PageId) (k : PageId) (c : Call PageId)
    (hc : c.writes k = false) (h : s.entriesFor k = []) : (s.call c).1.entriesFor k = [] := by
  cases c with
  | clear => simp [call, clear, entriesFor, StdMap.entriesFor]
  | performRelinking r => exact h
  | getParams k' => exact h
  | setParams k' r =>
    have hne : k ≠ k' := by
      intro hk
      simp [Call.writes, hk] at hc
    simp only [call, entriesFor]
    rw [setParams_eq, StdMap.entriesFor_upsert_of_ne _ _ _ _ _ hne]
    exact h
  | setDpi k' d =>
    have hne : k ≠ k' := by
      intro hk
      simp [Call.writes, hk] at hc
    exact (entriesFor_setField_of_ne s k' k (FieldValue.dpi d) hne).trans h
  | setEncoderState k' v =>
    have hne : k ≠ k' := by
      intro hk
      simp [Call.writes, hk] at hc
    exact (entriesFor_setField_of_ne s k' k (FieldValue.encoderState v) hne).trans h
  | setConverterState k' v =>
    have hne : k ≠ k' := by
      intro hk
      simp [Call.writes, hk] at hc
    exact (entriesFor_setField_of_ne s k' k (FieldValue.converterState v) hne).trans h
  | dpi k' => exact h
  | encoderState k' => exact h
  | converterState k' => exact h

theorem entriesFor_run_of_not_writes (s : Settings PageId) (k : PageId)
    (cs : List (Call PageId)) (hcs : ∀ c ∈ cs, c.writes k = false)
    (h : s.entriesFor k = []) : (s.run cs).entriesFor k = [] := by
  induction cs generalizing s with
  | nil => exact h
  | cons c cs ih =>
    exact ih _ (fun c' hc' => hcs c' (List.mem_cons_of_mem c hc'))
      (entriesFor_call_of_not_writes s k c (hcs c (List.mem_cons_self c cs)) h)

/-! ### The claims about the settings store -/

/-- C1: in a well-formed store, two field setters called on the same key for
two different fields leave exactly one entry for that key, and the record of
that entry holds both written values. When the key had no entry, the first
call adds one entry and the second call mutates that entry, so the store grows
by exactly one; when the key had an entry the size does not change. -/
theorem two_field_writes_one_entry (s : Settings PageId) (hs : s.WF) (k : PageId)
    (a b : FieldValue) (hab : a.sameField b = false) :
    (∃ p, ((s.setField k a).setField k b).entriesFor k = [(k, p)] ∧
        a.heldBy p ∧ b.heldBy p ∧ ((s.setField k a).setField k b).getParams k = p) ∧
    (s.entriesFor k = [] →
        (s.setField k a).entriesFor k = [(k, a.applyTo {})] ∧
        ((s.setField k a).setField k b).entriesFor k = [(k, b.applyTo (a.applyTo {}))] ∧
        (s.setField k a).size = s.size + 1 ∧
        ((s.setField k a).setField k b).size = s.size + 1) ∧
    (s.entriesFor k ≠ [] → ((s.setField k a).setField k b).size = s.size) := by
  have hs1 : (s.setField k a).WF := wf_setField s hs k a
  have e1 := entriesFor_setField_self s hs k a
  have e2 := entriesFor_setField_self (s.setField k a) hs1 k b
  have g1 := getParams_setField_self s k a
  have g2 := getParams_setField_self (s.setField k a) k b
  have l1 : StdMap.lookup (s.setField k a).m_perPageParams k
      = some (a.applyTo (s.getParams k)) := by
    rw [setField_eq, StdMap.lookup_upsert_self, getParams_eq]
    cases StdMap.lookup s.m_perPageParams k <;> rfl
  have z2 : ((s.setField k a).setField k b).size = (s.setField k a).size := by
    rw [size_setField, l1]
    simp
  refine ⟨⟨b.applyTo (a.applyTo (s.getParams k)), ?_, ?_, ?_, ?_⟩, ?_, ?_⟩
  · rw [e2, g1]
  · cases a <;> cases b <;> simp_all [FieldValue.sameField, FieldValue.heldBy,
      FieldValue.applyTo, Params.outputDpi, Params.encoderState, Params.converterState,
      Params.setOutputDpi, Params.setEncoderState, Params.setConverterState]
  · cases a <;> cases b <;> simp [FieldValue.heldBy,
      FieldValue.applyTo, Params.outputDpi, Params.encoderState, Params.converterState,
      Params.setOutputDpi, Params.setEncoderState, Params.setConverterState]
  · rw [g2, g1]
  · intro habs
    have hg := getParams_of_absent s k habs
    have l0 := StdMap.lookup_of_entriesFor_nil _ _ habs
    have z1 : (s.setField k a).size = s.size + 1 := by
      rw [size_setField, l0]
      simp
    refine ⟨?_, ?_, z1, ?_⟩
    · rw [e1, hg]
    · rw [e2, g1, hg]
    · rw [z2, z1]
  · intro hpres
    have hl : (StdMap.lookup s.m_perPageParams k).isSome = true := by
      cases hl : StdMap.lookup s.m_perPageParams k with
      | some v => rfl
      | none =>
        exfalso
        apply hpres
        have := StdMap.entriesFor_eq _ k hs
        rw [hl] at this
        exact this
    rw [z2, size_setField, hl]
    simp

/-- A store holding pages 1 and 5: `setDpi(3, 300x300)` followed by
`setEncoderState(3, "x")` leaves one entry for page 3 with both values, and
three entries in all. -/
theorem two_field_writes_one_entry_witness :
    (∃ p, (((⟨[(1, {}), (5, {})]⟩ : Settings Nat).setDpi 3 ⟨300, 300⟩).setEncoderState 3
          (QJSValue.blob "x")).entriesFor 3 = [(3, p)] ∧
        p.outputDpi = ⟨300, 300⟩ ∧ p.encoderState = QJSValue.blob "x") ∧
    (((⟨[(1, {}), (5, {})]⟩ : Settings Nat).setDpi 3 ⟨300, 300⟩).setEncoderState 3
          (QJSValue.blob "x")).size = 3 := by
  have h := two_field_writes_one_entry (⟨[(1, {}), (5, {})]⟩ : Settings Nat) (by decide) 3
    (FieldValue.dpi ⟨300, 300⟩) (FieldValue.encoderState (QJSValue.blob "x")) rfl
  obtain ⟨⟨p, hp, ha, hb, _⟩, habs, _⟩ := h
  exact ⟨⟨p, hp, ha, hb⟩, (habs (by decide)).2.2.2⟩

/-- C2: for each of the three fields, reading the field of a key right after
setting it returns the value written, whether or not the key had an entry. -/
theorem read_your_writes (s : Settings PageId) (k : PageId) (d : Dpi) (v : QJSValue) :
    (s.setDpi k d).dpi k = d ∧
    (s.setEncoderState k v).encoderState k = v ∧
    (s.setConverterState k v).converterState k = v := by
  refine ⟨?_, ?_, ?_⟩
  · rw [dpi_eq]
    exact (congrArg Params.outputDpi (getParams_setField_self s k (FieldValue.dpi d))).trans rfl
  · rw [encoderState_eq]
    exact (congrArg Params.encoderState
      (getParams_setField_self s k (FieldValue.encoderState v))).trans rfl
  · rw [converterState_eq]
    exact (congrArg Params.converterState
      (getParams_setField_self s k (FieldValue.converterState v))).trans rfl

/-- C3: for a key with no entry in the store, `getParams` returns the default
record and `dpi`, `encoderState`, `converterState` return the default values;
the same holds after any further calls none of which writes that key, which
covers keys never written since construction or since the last `clear`. Every
read is a total function, so none reports an error. -/
theorem absent_key_reads_defaults (s : Settings PageId) (k : PageId)
    (h : s.entriesFor k = []) :
    (s.getParams k = {} ∧ s.dpi k = {} ∧ s.encoderState k = QJSValue.undefined ∧
      s.converterState k = QJSValue.undefined) ∧
    ∀ cs : List (Call PageId), (∀ c ∈ cs, c.writes k = false) →
      (s.run cs).getParams k = {} ∧ (s.run cs).dpi k = {} ∧
      (s.run cs).encoderState k = QJSValue.undefined ∧
      (s.run cs).converterState k = QJSValue.undefined := by
  have key : ∀ t : Settings PageId, t.entriesFor k = [] →
      t.getParams k = {} ∧ t.dpi k = {} ∧ t.encoderState k = QJSValue.undefined ∧
      t.converterState k = QJSValue.undefined := by
    intro t ht
    have hg := getParams_of_absent t k ht
    refine ⟨hg, ?_, ?_, ?_⟩
    · rw [dpi_eq, hg]; rfl
    · rw [encoderState_eq, hg]; rfl
    · rw [converterState_eq, hg]; rfl
  exact ⟨key s h, fun cs hcs => key _ (entriesFor_run_of_not_writes s k cs hcs h)⟩

/-- The freshly constructed store read at key 7, at once and after writes to
the keys 1 and 2 and a read of key 7. -/
theorem absent_key_reads_defaults_witness :
    (new : Settings Nat).getParams 7 = {} ∧
    ((new : Settings Nat).run [Call.setDpi 1 ⟨300, 300⟩,
        Call.setEncoderState 2 (QJSValue.blob "x"), Call.getParams 7]).getParams 7 = {} := by
  have h := absent_key_reads_defaults (new : Settings Nat) 7 (by decide)
  exact ⟨h.1.1, (h.2 [Call.setDpi 1 ⟨300, 300⟩,
        Call.setEncoderState 2 (QJSValue.blob "x"), Call.getParams 7] (by decide)).1⟩

/-- C4: each of the four reads leaves the store as it was, for a present and
for an absent key: the entries are the same list, so no key is added and no
record changes. -/
theorem reads_leave_store_unchanged (s : Settings PageId) (k : PageId) :
    (s.call (Call.getParams k)).1 = s ∧
    (s.call (Call.dpi k)).1 = s ∧
    (s.call (Call.encoderState k)).1 = s ∧
    (s.call (Call.converterState k)).1 = s ∧
    ∀ c : Call PageId,
      (c = Call.getParams k ∨ c = Call.dpi k ∨ c = Call.encoderState k ∨
        c = Call.converterState k) →
      (s.call c).1.m_perPageParams = s.m_perPageParams ∧
      (s.call c).1.size = s.size ∧
      ∀ k' : PageId, (s.call c).1.entriesFor k' = s.entriesFor k' := by
  refine ⟨rfl, rfl, rfl, rfl, ?_⟩
  intro c hc
  rcases hc with rfl | rfl | rfl | rfl <;> exact ⟨rfl, rfl, fun _ => rfl⟩

/-- C5: after `clear()` the store has no entries and `getParams` returns the
default record for every key. -/
theorem clear_then_defaults (s : Settings PageId) (k : PageId) :
    s.clear.m_perPageParams = [] ∧ s.clear.size = 0 ∧ s.clear.entriesFor k = [] ∧
    s.clear.getParams k = {} := by
  refine ⟨rfl, rfl, rfl, ?_⟩
  exact getParams_of_absent _ k rfl

/-- C6: a field setter changes only its own field of the record of its key:
the other two fields read as before the call, which is the default value when
the key had no entry, and for every other key the entries and the record read
are unchanged. -/
theorem setField_changes_only_its_field (s : Settings PageId) (k : PageId) (d : Dpi)
    (v : QJSValue) :
    ((s.setDpi k d).encoderState k = s.encoderState k ∧
      (s.setDpi k d).converterState k = s.converterState k) ∧
    ((s.setEncoderState k v).dpi k = s.dpi k ∧
      (s.setEncoderState k v).converterState k = s.converterState k) ∧
    ((s.setConverterState k v).dpi k = s.dpi k ∧
      (s.setConverterState k v).encoderState k = s.encoderState k) ∧
    (s.entriesFor k = [] →
      (s.setDpi k d).getParams k = { m_dpi := d } ∧
      (s.setEncoderState k v).getParams k = { m_encoderState := v } ∧
      (s.setConverterState k v).getParams k = { m_converterState := v }) ∧
    (∀ k' : PageId, k' ≠ k →
      ((s.setDpi k d).entriesFor k' = s.entriesFor k' ∧
        (s.setDpi k d).getParams k' = s.getParams k') ∧
      ((s.setEncoderState k v).entriesFor k' = s.entriesFor k' ∧
        (s.setEncoderState k v).getParams k' = s.getParams k') ∧
      ((s.setConverterState k v).entriesFor k' = s.entriesFor k' ∧
        (s.setConverterState k v).getParams k' = s.getParams k')) := by
  have gd := getParams_setField_self s k (FieldValue.dpi d)
  have ge := getParams_setField_self s k (FieldValue.encoderState v)
  have gc := getParams_setField_self s k (FieldValue.converterState v)
  simp only [setField] at gd ge gc
  refine ⟨⟨?_, ?_⟩, ⟨?_, ?_⟩, ⟨?_, ?_⟩, ?_, ?_⟩
  · rw [encoderState_eq, encoderState_eq, gd]; rfl
  · rw [converterState_eq, converterState_eq, gd]; rfl
  · rw [dpi_eq, dpi_eq, ge]; rfl
  · rw [converterState_eq, converterState_eq, ge]; rfl
  · rw [dpi_eq, dpi_eq, gc]; rfl
  · rw [encoderState_eq, encoderState_eq, gc]; rfl
  · intro habs
    have hg := getParams_of_absent s k habs
    rw [gd, ge, gc, hg]
    exact ⟨rfl, rfl, rfl⟩
  · intro k' hne
    exact ⟨⟨entriesFor_setField_of_ne s k k' (FieldValue.dpi d) hne,
        getParams_setField_of_ne s k k' (FieldValue.dpi d) hne⟩,
      ⟨entriesFor_setField_of_ne s k k' (FieldValue.encoderState v) hne,
        getParams_setField_of_ne s k k' (FieldValue.encoderState v) hne⟩,
      ⟨entriesFor_setField_of_ne s k k' (FieldValue.converterState v) hne,
        getParams_setField_of_ne s k k' (FieldValue.converterState v) hne⟩⟩

/-- C7: in a well-formed store, after `setParams(k, r)` there is exactly one
entry for `k`, it holds `r`, and `getParams(k)` returns `r`, whether or not
`k` had an entry; for every other key the entries and the record read are
unchanged. -/
theorem setParams_overwrites_or_creates (s : Settings PageId) (hs : s.WF) (k : PageId)
    (r : Params) :
    (s.setParams k r).entriesFor k = [(k, r)] ∧
    (s.setParams k r).getParams k = r ∧
    ∀ k' : PageId, k' ≠ k →
      (s.setParams k r).entriesFor k' = s.entriesFor k' ∧
      (s.setParams k r).getParams k' = s.getParams k' := by
  have hl : StdMap.lookup (s.setParams k r).m_perPageParams k = some r := by
    rw [setParams_eq, StdMap.lookup_upsert_self]
    cases StdMap.lookup s.m_perPageParams k <;> rfl
  refine ⟨?_, ?_, ?_⟩
  · have h := StdMap.entriesFor_eq _ k (wf_setParams s hs k r)
    unfold entriesFor
    rw [h, hl]
  · rw [getParams_eq, hl]
    rfl
  · intro k' hne
    constructor
    · unfold entriesFor
      rw [setParams_eq, StdMap.entriesFor_upsert_of_ne _ _ _ _ _ hne]
    · rw [getParams_eq, getParams_eq, setParams_eq, StdMap.lookup_upsert_of_ne _ _ _ _ _ hne]

/-- A store holding pages 1 and 5, in which the record of page 5 is overwritten. -/
theorem setParams_overwrites_or_creates_witness :
    ((⟨[(1, {}), (5, {})]⟩ : Settings Nat).setParams 5
        { m_dpi := ⟨600, 600⟩ }).entriesFor 5 = [(5, { m_dpi := ⟨600, 600⟩ })] ∧
    ((⟨[(1, {}), (5, {})]⟩ : Settings Nat).setParams 5
        { m_dpi := ⟨600, 600⟩ }).getParams 5 = { m_dpi := ⟨600, 600⟩ } := by
  have h := setParams_overwrites_or_creates (⟨[(1, {}), (5, {})]⟩ : Settings Nat)
    (by decide) 5 { m_dpi := ⟨600, 600⟩ }
  exact ⟨h.1, h.2.1⟩

end Settings

end publishing

/-! ## The delivery of a load result -/

namespace MainThread

theorem set_of_getElem? {α : Type} (l : List α) (i : Nat) (a : α) (h : l[i]? = some a) :
    l.set i a = l := by
  induction l generalizing i with
  | nil => rfl
  | cons x rest ih =>
    cases i with
    | zero =>
      simp at h
      simp [h]
    | succ n =>
      simp at h
      simp [ih n h]

theorem objects_of_resolve (w : MainThread) (p : QPointer) (o : DebugImageView)
    (h : w.resolve p = some o) : w.objects[p.addr]? = some (some o) := by
  unfold resolve at h
  split at h
  · rename_i o' ho'
    rw [ho']
    exact congrArg some h
  · exact absurd h (by simp)

theorem resolve_destroy (w : MainThread) (p : QPointer) : (w.destroy p).resolve p = none := by
  unfold resolve destroy
  by_cases h : p.addr < w.objects.length
  · simp [List.getElem?_set, h]
  · simp [List.getElem?_set, h]

theorem call_of_resolve_none (w : MainThread) (r : DebugImageView.ImageLoadResult)
    (h : w.resolve r.m_ptrOwner = none) : r.call w = w := by
  unfold DebugImageView.ImageLoadResult.call
  rw [h]

end MainThread

/-- C8: a delivery task whose owner pointer resolves to nothing, the owner
having been destroyed, changes nothing: no object changes, `imageLoaded` is
not called, and this holds for every image carried and for any number of such
deliveries run one after the other. -/
theorem delivery_to_destroyed_owner_is_noop (w : MainThread)
    (rs : List DebugImageView.ImageLoadResult)
    (h : ∀ r ∈ rs, w.resolve r.m_ptrOwner = none) :
    (∀ r ∈ rs, r.call w = w ∧ (r.call w).imageLoadedCalls = w.imageLoadedCalls) ∧
    w.deliverAll rs = w := by
  constructor
  · intro r hr
    rw [MainThread.call_of_resolve_none w r (h r hr)]
    exact ⟨rfl, rfl⟩
  · induction rs with
    | nil => rfl
    | cons r rs ih =>
      unfold MainThread.deliverAll
      rw [MainThread.call_of_resolve_none w r (h r (List.mem_cons_self r rs))]
      exact ih (fun r' hr' => h r' (List.mem_cons_of_mem r hr'))

/-- An owner is created, made live (which submits a load), and destroyed
before the result comes back; the result is then delivered twice. -/
theorem delivery_to_destroyed_owner_is_noop_witness :
    (((((({} : MainThread).create "page.png" none).1.setLive ⟨0⟩ true).destroy ⟨0⟩).deliverAll
        [DebugImageView.ImageLoader.call ⟨⟨0⟩, "page.png"⟩ (fun _ => QImage.loaded [1, 2, 3]),
         DebugImageView.ImageLoader.call ⟨⟨0⟩, "page.png"⟩ (fun _ => QImage.loaded [1, 2, 3])])
      = ((({} : MainThread).create "page.png" none).1.setLive ⟨0⟩ true).destroy ⟨0⟩) :=
  (delivery_to_destroyed_owner_is_noop
    (((({} : MainThread).create "page.png" none).1.setLive ⟨0⟩ true).destroy ⟨0⟩)
    [DebugImageView.ImageLoader.call ⟨⟨0⟩, "page.png"⟩ (fun _ => QImage.loaded [1, 2, 3]),
     DebugImageView.ImageLoader.call ⟨⟨0⟩, "page.png"⟩ (fun _ => QImage.loaded [1, 2, 3])]
    (by
      intro r hr
      simp only [List.mem_cons, List.mem_singleton, List.not_mem_nil, or_false, or_self] at hr
      subst hr
      exact MainThread.resolve_destroy _ ⟨0⟩)).2

/-- C9: for an owner whose `m_isLive` is false, `imageLoaded` returns at once:
the owner is unchanged, so no widget is added, the flag stays false and the
placeholder, when it was the current widget, stays the current widget. A
delivery task that reaches such an owner leaves every object as it was. -/
theorem inactive_owner_ignores_result (o : DebugImageView) (image : QImage)
    (h : o.m_isLive = false) :
    o.imageLoaded image = o ∧
    (o.imageLoaded image).stack.widgets = o.stack.widgets ∧
    (o.imageLoaded image).m_isLive = false ∧
    (o.currentWidget = some DebugImageView.m_pPlaceholderWidget →
      (o.imageLoaded image).currentWidget = some DebugImageView.m_pPlaceholderWidget) ∧
    ∀ (w : MainThread) (p : QPointer), w.resolve p = some o →
      (DebugImageView.ImageLoadResult.call ⟨p, image⟩ w).objects = w.objects ∧
      (DebugImageView.ImageLoadResult.call ⟨p, image⟩ w).executor = w.executor := by
  have h0 : o.imageLoaded image = o := by
    unfold DebugImageView.imageLoaded
    simp [h]
  refine ⟨h0, by rw [h0], by rw [h0]; exact h, fun hc => by rw [h0]; exact hc, ?_⟩
  intro w p hp
  unfold DebugImageView.ImageLoadResult.call
  simp only [hp, h0]
  refine ⟨MainThread.set_of_getElem? _ _ _ (MainThread.objects_of_resolve w p o hp), ?_⟩
  trivial

/-- A freshly constructed owner, which is not live, receives an image. -/
theorem inactive_owner_ignores_result_witness :
    ((DebugImageView.new "page.png" none).imageLoaded (QImage.loaded [1, 2, 3])).stack.widgets
      = [QWidget.ProcessingIndicationWidget] ∧
    ((DebugImageView.new "page.png" none).imageLoaded (QImage.loaded [1, 2, 3])).currentWidget
      = some DebugImageView.m_pPlaceholderWidget :=
  ⟨(inactive_owner_ignores_result (DebugImageView.new "page.png" none)
      (QImage.loaded [1, 2, 3]) rfl).2.1,
    (inactive_owner_ignores_result (DebugImageView.new "page.png" none)
      (QImage.loaded [1, 2, 3]) rfl).2.2.2.1 rfl⟩

/-- Counterexample to C10 as stated: a live owner showing the placeholder
receives the null image of a failed load, and afterwards its current widget is
a `BasicImageView` built from the null image, not the placeholder. -/
theorem null_image_replaces_placeholder :
    (((DebugImageView.new "" none).setLive ⟨0⟩ true {}).1).m_isLive = true ∧
    (((DebugImageView.new "" none).setLive ⟨0⟩ true {}).1).currentWidget
      = some DebugImageView.m_pPlaceholderWidget ∧
    QImage.null.isNull = true ∧
    ((((DebugImageView.new "" none).setLive ⟨0⟩ true {}).1).imageLoaded QImage.null).currentWidget
      = some (QWidget.view (BasicImageView QImage.null)) ∧
    ((((DebugImageView.new "" none).setLive ⟨0⟩ true {}).1).imageLoaded QImage.null).currentWidget
      ≠ some DebugImageView.m_pPlaceholderWidget := by
  refine ⟨rfl, rfl, rfl, ?_, ?_⟩
  · decide
  · decide

/-- C10, amended: a live owner showing the placeholder builds a view from the
delivered image, valid or null alike (the widget of the factory, or a
`BasicImageView` when there is no factory), appends it to the stack and makes
it the current widget; the placeholder stays in the stack and is no longer
current. -/
theorem live_owner_presents_any_image (o : DebugImageView) (image : QImage)
    (hlive : o.m_isLive = true)
    (hcur : o.currentWidget = some DebugImageView.m_pPlaceholderWidget) :
    (o.imageLoaded image).stack.widgets
      = o.stack.widgets ++ [QWidget.view (o.builtView image)] ∧
    (o.imageLoaded image).currentWidget = some (QWidget.view (o.builtView image)) ∧
    (o.imageLoaded image).currentWidget ≠ some DebugImageView.m_pPlaceholderWidget ∧
    (o.imageLoaded image).m_isLive = true ∧
    (o.m_imageViewFactory = none → o.m_file = "" → o.builtView image = BasicImageView image) := by
  have hst : (o.imageLoaded image).stack
      = (o.stack.addWidget (QWidget.view (o.builtView image))).1.setCurrentIndex
          o.stack.widgets.length := by
    unfold DebugImageView.imageLoaded
    simp only [hlive, hcur]
    rfl
  have hw : (o.imageLoaded image).stack.widgets
      = o.stack.widgets ++ [QWidget.view (o.builtView image)] := by
    rw [hst]
    simp [QStackedWidget.setCurrentIndex, QStackedWidget.addWidget]
  have hi : (o.imageLoaded image).stack.index = some o.stack.widgets.length := by
    rw [hst]
    simp [QStackedWidget.setCurrentIndex, QStackedWidget.addWidget]
  have hc : (o.imageLoaded image).currentWidget = some (QWidget.view (o.builtView image)) := by
    unfold DebugImageView.currentWidget QStackedWidget.currentWidget
    rw [hi]
    simp only [hw]
    simp
  refine ⟨hw, hc, ?_, ?_, ?_⟩
  · rw [hc]
    simp [DebugImageView.m_pPlaceholderWidget]
  · unfold DebugImageView.imageLoaded
    simp [hlive, hcur]
  · intro hf hfile
    have he : ("" : String).isEmpty = true := by decide
    unfold DebugImageView.builtView
    simp [hf, hfile, he]

/-- A live owner of the file `page.png`, without a factory, receives the null image. -/
theorem live_owner_presents_any_image_witness :
    ((((DebugImageView.new "page.png" none).setLive ⟨0⟩ true {}).1).imageLoaded
        QImage.null).currentWidget
      = some (QWidget.view
          (((DebugImageView.new "page.png" none).setLive ⟨0⟩ true {}).1.builtView QImage.null)) :=
  (live_owner_presents_any_image (((DebugImageView.new "page.png" none).setLive ⟨0⟩ true {}).1)
    QImage.null rfl rfl).2.1

/-! ## The setters as refinements, and what no call removes -/

namespace publishing

namespace StdMap

variable {K V : Type} [LinearOrder K]

theorem endOrGreater_iff_lookup (m : StdMap K V) (k : K) :
    endOrGreater m (lower_bound m k) k = true ↔ lookup m k = none := by
  induction m with
  | nil => simp [endOrGreater, lower_bound, lookup]
  | cons e rest ih =>
    by_cases hlt : e.1 < k
    · have hlb : lower_bound (e :: rest) k = lower_bound rest k + 1 := by
        simp [lower_bound, key_comp, hlt]
      have hg : endOrGreater (e :: rest) (lower_bound rest k + 1) k
          = endOrGreater rest (lower_bound rest k) k := by
        simp [endOrGreater]
      rw [hlb, hg, ih]
      simp [lookup, hlt]
    · have hlb : lower_bound (e :: rest) k = 0 := by
        simp [lower_bound, key_comp, hlt]
      rw [hlb]
      by_cases hgt : k < e.1
      · simp [endOrGreater, key_comp, lookup, hlt, hgt]
      · simp [endOrGreater, key_comp, lookup, hlt, hgt]

theorem upsert_eq_overwrite (m : StdMap K V) (k : K) (c : V) (u : V → V) :
    upsert m k c u =
      upsert m k (match lookup m k with
          | none => c
          | some v => u v)
        (fun _ => match lookup m k with
          | none => c
          | some v => u v) := by
  induction m with
  | nil => simp [upsert, lookup]
  | cons e rest ih =>
    by_cases hlt : e.1 < k
    · simp only [upsert, lookup, hlt, if_true]
      rw [ih]
    · by_cases hgt : k < e.1
      · simp [upsert, lookup, hlt, hgt]
      · simp [upsert, lookup, hlt, hgt]

theorem entriesFor_upsert_ne_nil (m : StdMap K V) (k : K) (c : V) (u : V → V) :
    entriesFor (upsert m k c u) k ≠ [] := by
  induction m with
  | nil => simp [upsert, entriesFor]
  | cons e rest ih =>
    by_cases hlt : e.1 < k
    · simp only [entriesFor] at ih
      simp [upsert, entriesFor, hlt, List.filter_cons, ne_of_lt hlt]
      simpa [List.filter_eq_nil_iff] using ih
    · by_cases hgt : k < e.1
      · simp [upsert, entriesFor, hlt, hgt, List.filter_cons]
      · have hk : e.1 = k := le_antisymm (not_lt.mp hgt) (not_lt.mp hlt)
        simp [upsert, entriesFor, hlt, hgt, List.filter_cons, hk]

theorem entriesFor_upsert_keeps (m : StdMap K V) (k k' : K) (c : V) (u : V → V)
    (h : entriesFor m k' ≠ []) : entriesFor (upsert m k c u) k' ≠ [] := by
  by_cases hk : k' = k
  · rw [hk]
    exact entriesFor_upsert_ne_nil m k c u
  · rw [entriesFor_upsert_of_ne m k k' c u hk]
    exact h

end StdMap

namespace Settings

variable {PageId : Type} [LinearOrder PageId]

theorem eq_of_entries {P : Type} (a b : Settings P)
    (h : a.m_perPageParams = b.m_perPageParams) : a = b := by
  cases a
  cases b
  simp only at h
  rw [h]

theorem setField_eq_twoStep (s : Settings PageId) (k : PageId) (w : FieldValue) :
    s.setField k w = s.setFieldTwoStep k w := by
  apply eq_of_entries
  unfold setFieldTwoStep
  rw [setField_eq, setParams_eq, getParams_eq, StdMap.upsert_eq_overwrite]
  cases StdMap.lookup s.m_perPageParams k <;> rfl

/-- C17: a call other than `clear` never removes an entry: every key that has
an entry before the call has one after it, whichever of the other nine
methods is called and on whichever key; `performRelinking` returns the store
as it was for every relinker. -/
theorem entries_survive_every_call_but_clear (s : Settings PageId) (c : Call PageId)
    (hc : c ≠ Call.clear) :
    (∀ k : PageId, s.entriesFor k ≠ [] → (s.call c).1.entriesFor k ≠ []) ∧
    s.size ≤ (s.call c).1.size ∧
    ∀ relinker : AbstractRelinker, s.performRelinking relinker = s := by
  have hf : ∀ (k' : PageId) (w : FieldValue),
      (∀ k : PageId, s.entriesFor k ≠ [] → (s.setField k' w).entriesFor k ≠ []) ∧
      s.size ≤ (s.setField k' w).size := by
    intro k' w
    constructor
    · intro k hk
      unfold entriesFor
      rw [setField_eq]
      exact StdMap.entriesFor_upsert_keeps _ _ _ _ _ hk
    · rw [size_setField]
      exact Nat.le_add_right _ _
  refine ⟨?_, ?_, fun _ => rfl⟩
  · intro k hk
    cases c with
    | clear => exact absurd rfl hc
    | performRelinking r => exact hk
    | getParams k' => exact hk
    | setParams k' r =>
      simp only [call, entriesFor]
      rw [setParams_eq]
      exact StdMap.entriesFor_upsert_keeps _ _ _ _ _ hk
    | setDpi k' d => exact (hf k' (FieldValue.dpi d)).1 k hk
    | setEncoderState k' v => exact (hf k' (FieldValue.encoderState v)).1 k hk
    | setConverterState k' v => exact (hf k' (FieldValue.converterState v)).1 k hk
    | dpi k' => exact hk
    | encoderState k' => exact hk
    | converterState k' => exact hk
  · cases c with
    | clear => exact absurd rfl hc
    | performRelinking r => exact Nat.le_refl _
    | getParams k' => exact Nat.le_refl _
    | setParams k' r =>
      simp only [call, size]
      rw [setParams_eq, StdMap.length_upsert]
      exact Nat.le_add_right _ _
    | setDpi k' d => exact (hf k' (FieldValue.dpi d)).2
    | setEncoderState k' v => exact (hf k' (FieldValue.encoderState v)).2
    | setConverterState k' v => exact (hf k' (FieldValue.converterState v)).2
    | dpi k' => exact Nat.le_refl _
    | encoderState k' => exact Nat.le_refl _
    | converterState k' => exact Nat.le_refl _

/-- A store holding pages 1 and 5 keeps its entry for page 5 when the
resolution of page 3 is set. -/
theorem entries_survive_every_call_but_clear_witness :
    (((⟨[(1, {}), (5, {})]⟩ : Settings Nat).call (Call.setDpi 3 ⟨300, 300⟩)).1).entriesFor 5
      ≠ [] :=
  (entries_survive_every_call_but_clear (⟨[(1, {}), (5, {})]⟩ : Settings Nat)
    (Call.setDpi 3 ⟨300, 300⟩) (fun h => Call.noConfusion h)).1 5 (by decide)

/-- C19: in a well-formed store each single-lookup setter gives the same store
as the two-step update `setParams(k, p')`, where `p'` is `getParams(k)` with
the one field replaced; and the test `it == end() || key_comp()(k, it->first)`
at `it = lower_bound(k)` is true exactly when `k` has no entry. -/
theorem setters_refine_two_step_update (s : Settings PageId) (hs : s.WF) (k : PageId)
    (d : Dpi) (v : QJSValue) :
    s.setDpi k d = s.setParams k ((s.getParams k).setOutputDpi d) ∧
    s.setEncoderState k v = s.setParams k ((s.getParams k).setEncoderState v) ∧
    s.setConverterState k v = s.setParams k ((s.getParams k).setConverterState v) ∧
    (∀ w : FieldValue, s.setField k w = s.setFieldTwoStep k w) ∧
    (StdMap.endOrGreater s.m_perPageParams (StdMap.lower_bound s.m_perPageParams k) k = true
      ↔ s.entriesFor k = []) := by
  refine ⟨setField_eq_twoStep s k (FieldValue.dpi d),
    setField_eq_twoStep s k (FieldValue.encoderState v),
    setField_eq_twoStep s k (FieldValue.converterState v),
    fun w => setField_eq_twoStep s k w, ?_⟩
  rw [StdMap.endOrGreater_iff_lookup]
  constructor
  · intro h
    have := StdMap.entriesFor_eq _ k hs
    rw [h] at this
    exact this
  · exact StdMap.lookup_of_entriesFor_nil _ _

/-- A store holding pages 1 and 5: setting the resolution of the absent page 3
and of the present page 5 agrees with the two-step update. -/
theorem setters_refine_two_step_update_witness :
    (⟨[(1, {}), (5, {})]⟩ : Settings Nat).setDpi 3 ⟨300, 300⟩
      = (⟨[(1, {}), (5, {})]⟩ : Settings Nat).setParams 3
          (((⟨[(1, {}), (5, {})]⟩ : Settings Nat).getParams 3).setOutputDpi ⟨300, 300⟩) ∧
    (⟨[(1, {}), (5, {})]⟩ : Settings Nat).setDpi 5 ⟨300, 300⟩
      = (⟨[(1, {}), (5, {})]⟩ : Settings Nat).setParams 5
          (((⟨[(1, {}), (5, {})]⟩ : Settings Nat).getParams 5).setOutputDpi ⟨300, 300⟩) :=
  ⟨(setters_refine_two_step_update (⟨[(1, {}), (5, {})]⟩ : Settings Nat) (by decide) 3
      ⟨300, 300⟩ QJSValue.undefined).1,
    (setters_refine_two_step_update (⟨[(1, {}), (5, {})]⟩ : Settings Nat) (by decide) 5
      ⟨300, 300⟩ QJSValue.undefined).1⟩

end Settings

end publishing

/-! ## The activation state machine of the owner -/

namespace DebugImageView

theorem stackOk_new (file : String) (factory : Option (QImage → ImageView)) :
    (new file factory).StackOk := by
  left
  rfl

theorem imageLoaded_of_not_live (o : DebugImageView) (image : QImage)
    (h : o.m_isLive = false) : o.imageLoaded image = o := by
  unfold imageLoaded
  simp [h]

theorem imageLoaded_of_not_placeholder (o : DebugImageView) (image : QImage)
    (h : o.currentWidget ≠ some m_pPlaceholderWidget) : o.imageLoaded image = o := by
  unfold imageLoaded
  by_cases hl : o.m_isLive = true
  · simp [hl, h]
  · simp [hl]

theorem imageLoaded_of_placeholder (o : DebugImageView) (image : QImage)
    (hlive : o.m_isLive = true) (hcur : o.currentWidget = some m_pPlaceholderWidget) :
    o.imageLoaded image =
      { o with stack :=
          { widgets := o.stack.widgets ++ [QWidget.view (o.builtView image)],
            index := some o.stack.widgets.length } } := by
  have hidx : ∃ i, o.stack.index = some i := by
    unfold currentWidget QStackedWidget.currentWidget at hcur
    cases hi : o.stack.index with
    | none => simp [hi] at hcur
    | some i => exact ⟨i, rfl⟩
  obtain ⟨i, hi⟩ := hidx
  unfold imageLoaded
  simp only [hlive, hcur]
  simp [QStackedWidget.setCurrentIndex, QStackedWidget.addWidget, builtView, hi]

theorem currentWidget_after_present (o : DebugImageView) (image : QImage)
    (hlive : o.m_isLive = true) (hcur : o.currentWidget = some m_pPlaceholderWidget) :
    (o.imageLoaded image).currentWidget = some (QWidget.view (o.builtView image)) := by
  rw [imageLoaded_of_placeholder o image hlive hcur]
  simp [currentWidget, QStackedWidget.currentWidget]

theorem currentWidget_of_stackOk_not_live (o : DebugImageView) (h : o.StackOk)
    (hl : o.m_isLive = false) :
    o.stack = { widgets := [m_pPlaceholderWidget], index := some 0 } := by
  rcases h with h | ⟨hlive, _⟩
  · exact h
  · rw [hl] at hlive
    exact absurd hlive (by simp)

theorem setLive_false_of_stackOk (o : DebugImageView) (h : o.StackOk) (this : QPointer)
    (ex : BackgroundExecutor) :
    (o.setLive this false ex).1.stack = { widgets := [m_pPlaceholderWidget], index := some 0 } ∧
    (o.setLive this false ex).1.m_isLive = false ∧
    (o.setLive this false ex).1.m_file = o.m_file ∧
    (o.setLive this false ex).1.m_imageViewFactory = o.m_imageViewFactory ∧
    (o.setLive this false ex).2 = ex := by
  rcases h with h | ⟨hlive, v, hv⟩
  · by_cases hl : o.m_isLive = true
    · simp [setLive, hl, currentWidget, QStackedWidget.currentWidget, h]
    · simp [setLive, hl, h]
  · simp [setLive, hlive, currentWidget, QStackedWidget.currentWidget, hv,
      m_pPlaceholderWidget, QStackedWidget.removeWidget, QStackedWidget.indexOf]

theorem setLive_true_fields (o : DebugImageView) (this : QPointer)
    (ex : BackgroundExecutor) :
    (o.setLive this true ex).1.stack = o.stack ∧
    (o.setLive this true ex).1.m_isLive = true ∧
    (o.setLive this true ex).1.m_file = o.m_file ∧
    (o.setLive this true ex).1.m_imageViewFactory = o.m_imageViewFactory := by
  by_cases hl : o.m_isLive = true
  · simp [setLive, hl]
  · simp [setLive, hl]

theorem stackOk_setLive (o : DebugImageView) (h : o.StackOk) (this : QPointer) (live : Bool)
    (ex : BackgroundExecutor) : (o.setLive this live ex).1.StackOk := by
  cases live with
  | false =>
    left
    exact (setLive_false_of_stackOk o h this ex).1
  | true =>
    have hs := setLive_true_fields o this ex
    rcases h with h | ⟨_, v, hv⟩
    · left
      rw [hs.1]
      exact h
    · right
      exact ⟨hs.2.1, v, by rw [hs.1]; exact hv⟩

theorem stackOk_imageLoaded (o : DebugImageView) (h : o.StackOk) (image : QImage) :
    (o.imageLoaded image).StackOk := by
  by_cases hl : o.m_isLive = true
  · rcases h with h | ⟨hlive, v, hv⟩
    · have hcur : o.currentWidget = some m_pPlaceholderWidget := by
        simp [currentWidget, QStackedWidget.currentWidget, h]
      right
      rw [imageLoaded_of_placeholder o image hl hcur]
      exact ⟨hl, o.builtView image, by simp [h]⟩
    · have hcur : o.currentWidget ≠ some m_pPlaceholderWidget := by
        simp [currentWidget, QStackedWidget.currentWidget, hv, m_pPlaceholderWidget]
      rw [imageLoaded_of_not_placeholder o image hcur]
      exact Or.inr ⟨hlive, v, hv⟩
  · rw [imageLoaded_of_not_live o image (by simpa using hl)]
    exact h

theorem stackOk_step (this : QPointer) (st : DebugImageView × BackgroundExecutor)
    (h : st.1.StackOk) (e : Event) : (step this st e).1.StackOk := by
  cases e with
  | setLive live => exact stackOk_setLive st.1 h this live st.2
  | imageLoaded image => exact stackOk_imageLoaded st.1 h image

theorem stackOk_runEvents (this : QPointer) (st : DebugImageView × BackgroundExecutor)
    (h : st.1.StackOk) (es : List Event) : (runEvents this st es).1.StackOk := by
  induction es generalizing st with
  | nil => exact h
  | cons e es ih => exact ih _ (stackOk_step this st h e)

theorem deliverImages_of_not_placeholder (o : DebugImageView)
    (h : o.currentWidget ≠ some m_pPlaceholderWidget) (images : List QImage) :
    o.deliverImages images = o := by
  induction images with
  | nil => rfl
  | cons image rest ih =>
    unfold deliverImages
    rw [imageLoaded_of_not_placeholder o image h]
    exact ih

end DebugImageView

/-- C13: `setLive(true)` on an owner that is not live appends exactly one
`ImageLoader` task to the queue of the background executor, carrying the
pointer to the owner and the path of its file, and makes the owner live;
`setLive(true)` on a live owner and `setLive(false)` leave the queue as it
was. So each activation of an inactive owner submits a load of its own, also
right after a deactivation that tore down an earlier presentation. -/
theorem setLive_submits_one_load_on_activation (o : DebugImageView) (this : QPointer)
    (ex : BackgroundExecutor) :
    (o.m_isLive = false →
      (o.setLive this true ex).2.tasks
        = ex.tasks ++ [{ m_ptrOwner := this, m_filePath := o.m_file }] ∧
      (o.setLive this true ex).1.m_isLive = true) ∧
    (o.m_isLive = true →
      (o.setLive this true ex).2 = ex ∧ (o.setLive this true ex).1.m_isLive = true) ∧
    ((o.setLive this false ex).2 = ex ∧ (o.setLive this false ex).1.m_isLive = false) ∧
    ∀ ex2 : BackgroundExecutor,
      (((o.setLive this false ex).1).setLive this true ex2).2.tasks
        = ex2.tasks ++ [{ m_ptrOwner := this, m_filePath := o.m_file }] := by
  refine ⟨?_, ?_, ?_, ?_⟩
  · intro h
    simp [DebugImageView.setLive, h, BackgroundExecutor.enqueueTask]
  · intro h
    simp [DebugImageView.setLive, h]
  · by_cases h : o.m_isLive = true
    · simp only [DebugImageView.setLive, h]
      cases hc : o.currentWidget with
      | none => simp
      | some wgt =>
        by_cases hw : wgt = DebugImageView.m_pPlaceholderWidget
        · simp [hw]
        · simp [hw]
    · simp [DebugImageView.setLive, h]
  · intro ex2
    by_cases h : o.m_isLive = true
    · simp only [DebugImageView.setLive, h]
      cases hc : o.currentWidget with
      | none => simp [BackgroundExecutor.enqueueTask]
      | some wgt =>
        by_cases hw : wgt = DebugImageView.m_pPlaceholderWidget
        · simp [hw, BackgroundExecutor.enqueueTask]
        · simp [hw, BackgroundExecutor.enqueueTask]
    · simp [DebugImageView.setLive, h, BackgroundExecutor.enqueueTask]

/-- C15: after any history of `setLive` and `imageLoaded` calls on a newly
constructed owner, the stack holds the placeholder alone or the placeholder
and one image view, and it holds an image view only while the owner is live;
a further `setLive(false)` leaves the placeholder alone in the stack, as the
current widget, with the flag false. -/
theorem stack_holds_at_most_one_view (file : String)
    (factory : Option (QImage → ImageView)) (this : QPointer) (ex : BackgroundExecutor)
    (es : List DebugImageView.Event) :
    ((DebugImageView.runEvents this (DebugImageView.new file factory, ex) es).1.stack.widgets
        = [DebugImageView.m_pPlaceholderWidget] ∨
      ∃ v : ImageView,
        (DebugImageView.runEvents this (DebugImageView.new file factory, ex) es).1.stack.widgets
          = [DebugImageView.m_pPlaceholderWidget, QWidget.view v]) ∧
    ((DebugImageView.runEvents this (DebugImageView.new file factory, ex) es).1.m_isLive = false →
      (DebugImageView.runEvents this (DebugImageView.new file factory, ex) es).1.stack.widgets
          = [DebugImageView.m_pPlaceholderWidget] ∧
      (DebugImageView.runEvents this (DebugImageView.new file factory, ex) es).1.currentWidget
          = some DebugImageView.m_pPlaceholderWidget) ∧
    ((DebugImageView.runEvents this (DebugImageView.new file factory, ex)
          (es ++ [DebugImageView.Event.setLive false])).1.stack.widgets
        = [DebugImageView.m_pPlaceholderWidget] ∧
      (DebugImageView.runEvents this (DebugImageView.new file factory, ex)
          (es ++ [DebugImageView.Event.setLive false])).1.currentWidget
        = some DebugImageView.m_pPlaceholderWidget ∧
      (DebugImageView.runEvents this (DebugImageView.new file factory, ex)
          (es ++ [DebugImageView.Event.setLive false])).1.m_isLive = false) := by
  have hrun : ∀ (st : DebugImageView × BackgroundExecutor) (es : List DebugImageView.Event)
      (e : DebugImageView.Event),
      DebugImageView.runEvents this st (es ++ [e])
        = DebugImageView.step this (DebugImageView.runEvents this st es) e := by
    intro st es e
    induction es generalizing st with
    | nil => rfl
    | cons e' es ih => exact ih _
  have hok := DebugImageView.stackOk_runEvents this (DebugImageView.new file factory, ex)
    (DebugImageView.stackOk_new file factory) es
  refine ⟨?_, ?_, ?_⟩
  · rcases hok with h | ⟨_, v, hv⟩
    · left
      rw [h]
    · right
      exact ⟨v, by rw [hv]⟩
  · intro hl
    have h := DebugImageView.currentWidget_of_stackOk_not_live _ hok hl
    constructor
    · rw [h]
    · simp [DebugImageView.currentWidget, QStackedWidget.currentWidget, h]
  · rw [hrun]
    have h := DebugImageView.setLive_false_of_stackOk _ hok this
      (DebugImageView.runEvents this (DebugImageView.new file factory, ex) es).2
    simp only [DebugImageView.step]
    refine ⟨by rw [h.1], ?_, h.2.1⟩
    simp [DebugImageView.currentWidget, QStackedWidget.currentWidget, h.1]

/-- C18: a live owner whose current widget is not the placeholder ignores every
delivered image: `imageLoaded` returns the owner as it was, once or any number
of times. So of the results delivered to a live owner that shows the
placeholder, only the first is presented. -/
theorem presented_owner_ignores_further_results (o : DebugImageView) (image : QImage)
    (_hlive : o.m_isLive = true)
    (hcur : o.currentWidget ≠ some DebugImageView.m_pPlaceholderWidget) :
    o.imageLoaded image = o ∧
    (∀ images : List QImage, o.deliverImages images = o) ∧
    ∀ (p : DebugImageView) (first : QImage) (rest : List QImage),
      p.m_isLive = true → p.currentWidget = some DebugImageView.m_pPlaceholderWidget →
      p.deliverImages (first :: rest) = p.imageLoaded first ∧
      (p.deliverImages (first :: rest)).stack.widgets
        = p.stack.widgets ++ [QWidget.view (p.builtView first)] := by
  refine ⟨DebugImageView.imageLoaded_of_not_placeholder o image hcur,
    DebugImageView.deliverImages_of_not_placeholder o hcur, ?_⟩
  intro p first rest hp hc
  have h1 := DebugImageView.currentWidget_after_present p first hp hc
  have hne : (p.imageLoaded first).currentWidget ≠ some DebugImageView.m_pPlaceholderWidget := by
    rw [h1]
    simp [DebugImageView.m_pPlaceholderWidget]
  have h2 : p.deliverImages (first :: rest) = p.imageLoaded first :=
    DebugImageView.deliverImages_of_not_placeholder _ hne rest
  refine ⟨h2, ?_⟩
  rw [h2, DebugImageView.imageLoaded_of_placeholder p first hp hc]

/-- A live owner that presents a first image receives a second one. -/
theorem presented_owner_ignores_further_results_witness :
    (((((DebugImageView.new "" none).setLive ⟨0⟩ true {}).1).imageLoaded
        (QImage.loaded [1])).imageLoaded (QImage.loaded [2]))
      = (((DebugImageView.new "" none).setLive ⟨0⟩ true {}).1).imageLoaded (QImage.loaded [1]) :=
  (presented_owner_ignores_further_results
    ((((DebugImageView.new "" none).setLive ⟨0⟩ true {}).1).imageLoaded (QImage.loaded [1]))
    (QImage.loaded [2]) rfl (by decide)).1

/-- Counterexample to C14 as stated: an owner is made live (load A is
submitted), deactivated, and made live again (load B is submitted). The file
changes between the two loads. The result of load A is delivered after the
re-activation and is presented; the result of load B, delivered next, is
ignored. The presentation after the re-activation is built from the load
submitted by the earlier activation. -/
theorem stale_result_presented_after_reactivation :
    (((({} : MainThread).create "page.png" none).1.setLive ⟨0⟩ true).executor.tasks
      = [⟨⟨0⟩, "page.png"⟩]) ∧
    ((((({} : MainThread).create "page.png" none).1.setLive ⟨0⟩ true).setLive ⟨0⟩
        false).setLive ⟨0⟩ true).executor.tasks
      = [⟨⟨0⟩, "page.png"⟩, ⟨⟨0⟩, "page.png"⟩] ∧
    ((((((({} : MainThread).create "page.png" none).1.setLive ⟨0⟩ true).setLive ⟨0⟩
        false).setLive ⟨0⟩ true).deliverAll
        [DebugImageView.ImageLoader.call ⟨⟨0⟩, "page.png"⟩ (fun _ => QImage.loaded [1]),
         DebugImageView.ImageLoader.call ⟨⟨0⟩, "page.png"⟩ (fun _ => QImage.loaded [2])]).resolve
        ⟨0⟩).map DebugImageView.currentWidget
      = some (some (QWidget.view
          (((BasicImageView (QImage.loaded [1])).addAction
            DebugImageView.save_as).setContextMenuPolicy
              ContextMenuPolicy.ActionsContextMenu))) := by
  refine ⟨?_, ?_, ?_⟩
  · decide
  · decide
  · decide

/-- C14, amended: in every state `o` an owner reaches by a history of `setLive`
and `imageLoaded` calls, a result delivered after `setLive(false)` is dropped,
and the `setLive(true)` that follows submits a load of its own; but the owner
keeps no record of which load a result comes from: the first result delivered
after the re-activation is presented, whichever load produced it, and every
later one is ignored. -/
theorem first_result_after_reactivation_is_presented (file : String)
    (factory : Option (QImage → ImageView)) (this : QPointer) (ex : BackgroundExecutor)
    (es : List DebugImageView.Event) (o : DebugImageView)
    (ho : o = (DebugImageView.runEvents this (DebugImageView.new file factory, ex) es).1)
    (ex1 ex2 : BackgroundExecutor) (image later : QImage) :
    ((o.setLive this false ex1).1.imageLoaded image = (o.setLive this false ex1).1) ∧
    (((o.setLive this false ex1).1.setLive this true ex2).2.tasks
      = ex2.tasks ++ [{ m_ptrOwner := this, m_filePath := o.m_file }]) ∧
    ((((o.setLive this false ex1).1.setLive this true ex2).1.imageLoaded image).currentWidget
      = some (QWidget.view (o.builtView image))) ∧
    ((((o.setLive this false ex1).1.setLive this true ex2).1.imageLoaded image).imageLoaded later
      = ((o.setLive this false ex1).1.setLive this true ex2).1.imageLoaded image) := by
  have hok : o.StackOk := by
    rw [ho]
    exact DebugImageView.stackOk_runEvents this _ (DebugImageView.stackOk_new file factory) es
  have h1 := DebugImageView.setLive_false_of_stackOk o hok this ex1
  have h2 := DebugImageView.setLive_true_fields (o.setLive this false ex1).1 this ex2
  have hcur : ((o.setLive this false ex1).1.setLive this true ex2).1.currentWidget
      = some DebugImageView.m_pPlaceholderWidget := by
    simp [DebugImageView.currentWidget, QStackedWidget.currentWidget, h2.1, h1.1]
  have hb : ((o.setLive this false ex1).1.setLive this true ex2).1.builtView image
      = o.builtView image := by
    unfold DebugImageView.builtView
    rw [h2.2.2.1, h2.2.2.2, h1.2.2.1, h1.2.2.2.1]
  have hp := DebugImageView.currentWidget_after_present _ image h2.2.1 hcur
  refine ⟨DebugImageView.imageLoaded_of_not_live _ image h1.2.1, ?_, ?_, ?_⟩
  · have ht : ∀ p : DebugImageView, p.m_isLive = false →
        (p.setLive this true ex2).2.tasks
          = ex2.tasks ++ [{ m_ptrOwner := this, m_filePath := p.m_file }] := by
      intro p hpl
      simp [DebugImageView.setLive, hpl, BackgroundExecutor.enqueueTask]
    rw [ht _ h1.2.1, h1.2.2.1]
  · rw [hp, hb]
  · apply DebugImageView.imageLoaded_of_not_placeholder
    rw [hp]
    simp [DebugImageView.m_pPlaceholderWidget]

/-- An owner that was live and presented an image is deactivated and made live
again; the image delivered next is presented. -/
theorem first_result_after_reactivation_is_presented_witness :
    (((((DebugImageView.runEvents ⟨0⟩ (DebugImageView.new "" none, {})
        [DebugImageView.Event.setLive true,
          DebugImageView.Event.imageLoaded (QImage.loaded [1])]).1.setLive ⟨0⟩ false {}).1.setLive
        ⟨0⟩ true {}).1.imageLoaded (QImage.loaded [2])).currentWidget
      = some (QWidget.view ((DebugImageView.runEvents ⟨0⟩ (DebugImageView.new "" none, {})
          [DebugImageView.Event.setLive true,
            DebugImageView.Event.imageLoaded (QImage.loaded [1])]).1.builtView
          (QImage.loaded [2])))) :=
  (first_result_after_reactivation_is_presented "" none ⟨0⟩ {}
    [DebugImageView.Event.setLive true, DebugImageView.Event.imageLoaded (QImage.loaded [1])]
    _ rfl {} {} (QImage.loaded [2]) QImage.null).2.2.1

/-! ## The save-as action -/

namespace DebugImageView

theorem save_as_destination_of_no_png (n : String)
    (hext : QString.right (QString.toLower n) 4 ≠ ".png") :
    save_as_destination n = (n ++ ".png", false) := by
  unfold save_as_destination
  rw [if_pos hext]

theorem save_as_destination_of_png (n : String)
    (hext : QString.right (QString.toLower n) 4 = ".png") :
    save_as_destination n = (n, true) := by
  unfold save_as_destination
  rw [if_neg (not_not.mpr hext)]

end DebugImageView

/-- Counterexample to C11 as stated: the name chosen is `out`, a file `out.png`
exists, and the user answers Cancel. The handler asks whether to replace
`out.png` and then does nothing: the question is not skipped, and the file is
neither removed nor copied over. With the answer Yes the question is asked all
the same, before the removal and the copy. -/
theorem appended_name_is_asked_about :
    (QString.trimmed "out").isEmpty = false ∧
    QString.right (QString.trimmed "out") 4 ≠ ".png" ∧
    (DebugImageView.new "page.png" none).save_as_triggered
        { chosen := "out", fileExists := fun n => n == "out.png",
          answer := StandardButton.Cancel, removeOk := fun _ => true,
          copyOk := fun _ _ => true }
      = [SaveAsEffect.question "out.png"] ∧
    (DebugImageView.new "page.png" none).save_as_triggered
        { chosen := "out", fileExists := fun n => n == "out.png",
          answer := StandardButton.Yes, removeOk := fun _ => true,
          copyOk := fun _ _ => true }
      = [SaveAsEffect.question "out.png", SaveAsEffect.remove "out.png" true,
          SaveAsEffect.copy "page.png" "out.png" true] := by
  refine ⟨?_, ?_, ?_, ?_⟩
  · decide
  · decide
  · decide
  · decide

/-- C11, amended: for a chosen name that after trimming is non-empty and does
not end in `.png`, compared without regard to case, the destination is the
trimmed name with `.png` appended. When no file of that name exists the
backing file is copied to it and no question is asked. When one exists the
user is asked first: on Cancel nothing else happens, otherwise the file is
removed and, when the removal succeeds, the backing file is copied. -/
theorem appended_name_prompts_before_overwrite (o : DebugImageView) (env : SaveAsEnv)
    (hne : (QString.trimmed env.chosen).isEmpty = false)
    (hext : QString.right (QString.toLower (QString.trimmed env.chosen)) 4 ≠ ".png") :
    (DebugImageView.save_as_destination (QString.trimmed env.chosen)).1
      = QString.trimmed env.chosen ++ ".png" ∧
    (env.fileExists (QString.trimmed env.chosen ++ ".png") = false →
      o.save_as_triggered env = o.save_as_copy env (QString.trimmed env.chosen ++ ".png") ∧
      ∃ ok, SaveAsEffect.copy o.m_file (QString.trimmed env.chosen ++ ".png") ok
        ∈ o.save_as_triggered env) ∧
    (env.fileExists (QString.trimmed env.chosen ++ ".png") = true →
      env.answer = StandardButton.Cancel →
      o.save_as_triggered env
        = [SaveAsEffect.question (QString.trimmed env.chosen ++ ".png")]) ∧
    (env.fileExists (QString.trimmed env.chosen ++ ".png") = true →
      env.answer = StandardButton.Yes →
      env.removeOk (QString.trimmed env.chosen ++ ".png") = true →
      o.save_as_triggered env
        = SaveAsEffect.question (QString.trimmed env.chosen ++ ".png") ::
          SaveAsEffect.remove (QString.trimmed env.chosen ++ ".png") true ::
          o.save_as_copy env (QString.trimmed env.chosen ++ ".png")) := by
  have hd := DebugImageView.save_as_destination_of_no_png _ hext
  refine ⟨by rw [hd], ?_, ?_, ?_⟩
  · intro hex
    have h : o.save_as_triggered env
        = o.save_as_copy env (QString.trimmed env.chosen ++ ".png") := by
      simp [DebugImageView.save_as_triggered, hne, hd, hex]
    refine ⟨h, ?_⟩
    rw [h]
    unfold DebugImageView.save_as_copy
    cases env.copyOk o.m_file (QString.trimmed env.chosen ++ ".png") <;> simp
  · intro hex hans
    simp [DebugImageView.save_as_triggered, hne, hd, hex, hans]
  · intro hex hans hrem
    simp [DebugImageView.save_as_triggered, hne, hd, hex, hans,
      DebugImageView.save_as_remove, hrem]

/-- The name ` scan ` is chosen and no file `scan.png` exists: the backing file
is copied to `scan.png`. -/
theorem appended_name_prompts_before_overwrite_witness :
    (DebugImageView.new "page.png" none).save_as_triggered
        { chosen := " scan ", fileExists := fun _ => false,
          answer := StandardButton.Yes, removeOk := fun _ => true,
          copyOk := fun _ _ => true }
      = (DebugImageView.new "page.png" none).save_as_copy
        { chosen := " scan ", fileExists := fun _ => false,
          answer := StandardButton.Yes, removeOk := fun _ => true,
          copyOk := fun _ _ => true } (QString.trimmed " scan " ++ ".png") :=
  ((appended_name_prompts_before_overwrite (DebugImageView.new "page.png" none)
    { chosen := " scan ", fileExists := fun _ => false,
      answer := StandardButton.Yes, removeOk := fun _ => true,
      copyOk := fun _ _ => true } (by decide) (by decide)).2.1 rfl).1

/-- C16: whatever the dialog and the file system answer, the handler takes no
step when the trimmed name is empty; it removes and copies nothing when it
asks the overwrite question and the answer is Cancel; it copies nothing when
the destination exists and cannot be removed; and whenever it attempts a copy,
the destination either did not exist or was removed with success just before. -/
theorem save_as_aborts_without_copy (o : DebugImageView) (env : SaveAsEnv) :
    ((QString.trimmed env.chosen).isEmpty = true → o.save_as_triggered env = []) ∧
    (∀ name : String, SaveAsEffect.question name ∈ o.save_as_triggered env →
      env.answer = StandardButton.Cancel →
      ∀ (a b : String) (ok : Bool),
        SaveAsEffect.remove a ok ∉ o.save_as_triggered env ∧
        SaveAsEffect.copy a b ok ∉ o.save_as_triggered env) ∧
    ((QString.trimmed env.chosen).isEmpty = false →
      env.fileExists (DebugImageView.save_as_destination (QString.trimmed env.chosen)).1 = true →
      env.removeOk (DebugImageView.save_as_destination (QString.trimmed env.chosen)).1 = false →
      ∀ (a b : String) (ok : Bool), SaveAsEffect.copy a b ok ∉ o.save_as_triggered env) ∧
    (∀ (a b : String) (ok : Bool), SaveAsEffect.copy a b ok ∈ o.save_as_triggered env →
      a = o.m_file ∧
      b = (DebugImageView.save_as_destination (QString.trimmed env.chosen)).1 ∧
      (env.fileExists b = false ∨
        List.Sublist [SaveAsEffect.remove b true, SaveAsEffect.copy a b ok]
          (o.save_as_triggered env))) := by
  simp only [DebugImageView.save_as_triggered, DebugImageView.save_as_remove,
    DebugImageView.save_as_copy]
  generalize DebugImageView.save_as_destination (QString.trimmed env.chosen) = df
  obtain ⟨d, flag⟩ := df
  generalize (QString.trimmed env.chosen).isEmpty = e
  cases e <;> cases flag <;> cases hx : env.fileExists d <;> cases ha : env.answer <;>
    cases hr : env.removeOk d <;> cases hc : env.copyOk o.m_file d <;>
    simp [hx, ha, hr, hc]

/-! ## The scopes of `ApplyDialog::onSubmit` -/

namespace deskew

namespace StdSet

variable {K : Type} [LinearOrder K]

theorem mem_insert (s : StdSet K) (k p : K) : p ∈ insert s k ↔ p = k ∨ p ∈ s := by
  induction s with
  | nil => simp [insert]
  | cons x rest ih =>
    by_cases hlt : x < k
    · simp only [insert, hlt, if_true, List.mem_cons, ih]
      tauto
    · by_cases hgt : k < x
      · simp [insert, hlt, hgt]
      · have hk : x = k := le_antisymm (not_lt.mp hgt) (not_lt.mp hlt)
        simp [insert, hlt, hgt, hk]

theorem ordered_insert (s : StdSet K) (k : K) (hs : Ordered s) : Ordered (insert s k) := by
  induction s with
  | nil => simp [insert, Ordered]
  | cons x rest ih =>
    have hrest : Ordered rest := (List.pairwise_cons.mp hs).2
    have hall : ∀ y ∈ rest, x < y := (List.pairwise_cons.mp hs).1
    by_cases hlt : x < k
    · simp only [insert, hlt, if_true]
      refine List.pairwise_cons.mpr ⟨?_, ih hrest⟩
      intro y hy
      rcases (mem_insert rest k y).mp hy with rfl | hy
      · exact hlt
      · exact hall y hy
    · by_cases hgt : k < x
      · simp only [insert, hlt, hgt, if_true, if_false]
        refine List.pairwise_cons.mpr ⟨?_, hs⟩
        intro y hy
        rcases List.mem_cons.mp hy with rfl | hy
        · exact hgt
        · exact lt_trans hgt (hall y hy)
      · simp only [insert, hlt, hgt, if_false]
        exact hs

theorem insert_of_all_lt (s : StdSet K) (k : K) (h : ∀ y ∈ s, y < k) :
    insert s k = s ++ [k] := by
  induction s with
  | nil => rfl
  | cons x rest ih =>
    have hx : x < k := h x (List.mem_cons_self x rest)
    simp only [insert, hx, if_true, List.cons_append]
    rw [ih (fun y hy => h y (List.mem_cons_of_mem x hy))]

theorem getElem?_alternate {A : Type} (l : List A) (i j : Nat) :
    (alternate l i)[j]? = l[2 * j + i % 2]? := by
  induction l generalizing i j with
  | nil => simp [alternate]
  | cons x rest ih =>
    by_cases hi : i % 2 = 0
    · have hi1 : (i + 1) % 2 = 1 := by omega
      simp only [alternate, hi, if_true]
      cases j with
      | zero => simp
      | succ j =>
        rw [List.getElem?_cons_succ, ih, hi1]
        have : 2 * (j + 1) + 0 = (2 * j + 1) + 1 := by omega
        rw [this, List.getElem?_cons_succ]
    · have hi1 : (i + 1) % 2 = 0 := by omega
      have hi2 : i % 2 = 1 := by omega
      simp only [alternate, hi, if_false]
      rw [ih, hi1, hi2]
      have : 2 * j + 1 = (2 * j + 0) + 1 := by omega
      rw [this, List.getElem?_cons_succ]
      rfl

theorem length_alternate {A : Type} (l : List A) (i : Nat) :
    (alternate l i).length = (l.length + (1 - i % 2)) / 2 := by
  induction l generalizing i with
  | nil =>
    have : (1 - i % 2) / 2 = 0 := by omega
    simp [alternate, this]
  | cons x rest ih =>
    by_cases hi : i % 2 = 0
    · have hi1 : (i + 1) % 2 = 1 := by omega
      simp only [alternate, hi, if_true, List.length_cons, ih, hi1]
      omega
    · have hi1 : (i + 1) % 2 = 0 := by omega
      have hi2 : i % 2 = 1 := by omega
      have e : alternate (x :: rest) i = alternate rest (i + 1) := by
        simp [alternate, hi]
      rw [e, ih, hi1, hi2]
      simp only [List.length_cons]

theorem index_unique (l : StdSet K) (hl : Ordered l) (i j : Nat) (a : K)
    (hi : l[i]? = some a) (hj : l[j]? = some a) : i = j := by
  obtain ⟨hi', hia⟩ := List.getElem?_eq_some.mp hi
  obtain ⟨hj', hja⟩ := List.getElem?_eq_some.mp hj
  have hp := List.pairwise_iff_getElem.mp hl
  rcases Nat.lt_trichotomy i j with h | h | h
  · have := hp i j hi' hj' h
    rw [hia, hja] at this
    exact absurd this (lt_irrefl a)
  · exact h
  · have := hp j i hj' hi' h
    rw [hia, hja] at this
    exact absurd this (lt_irrefl a)

end StdSet

namespace ApplyDialog

variable {PageId : Type} [LinearOrder PageId]

theorem thisEveryOtherLoop_eq (l : List PageId) (i : Nat) (acc : StdSet PageId)
    (h : StdSet.Ordered (acc ++ l)) :
    thisEveryOtherLoop l i acc = acc ++ StdSet.alternate l i := by
  induction l generalizing i acc with
  | nil => simp [thisEveryOtherLoop, StdSet.alternate]
  | cons x rest ih =>
    by_cases hi : i % 2 = 0
    · have hlt : ∀ y ∈ acc, y < x := by
        intro y hy
        exact (List.pairwise_append.mp h).2.2 y hy x (List.mem_cons_self x rest)
      simp only [thisEveryOtherLoop, StdSet.alternate, hi, if_true]
      rw [StdSet.insert_of_all_lt acc x hlt, ih (i + 1) (acc ++ [x]) (by simpa using h)]
      simp
    · simp only [thisEveryOtherLoop, StdSet.alternate, hi, if_false]
      apply ih
      refine List.Pairwise.sublist ?_ h
      exact List.Sublist.append_left (List.sublist_cons_self x rest) acc

theorem mem_collectRange (tmp acc : StdSet PageId) (r : PageRange PageId) (p : PageId) :
    p ∈ collectRange tmp acc r ↔ p ∈ acc ∨ (p ∈ tmp ∧ p ∈ r.pages) := by
  unfold collectRange
  generalize r.pages = l
  induction l generalizing acc with
  | nil => simp
  | cons x rest ih =>
    simp only [List.foldl_cons, ih]
    by_cases hx : x ∈ tmp
    · simp only [StdSet.contains, hx, decide_True, if_true, StdSet.mem_insert, List.mem_cons]
      constructor
      · rintro ((rfl | h) | ⟨h1, h2⟩)
        · exact Or.inr ⟨hx, Or.inl rfl⟩
        · exact Or.inl h
        · exact Or.inr ⟨h1, Or.inr h2⟩
      · rintro (h | ⟨h1, rfl | h2⟩)
        · exact Or.inl (Or.inr h)
        · exact Or.inl (Or.inl rfl)
        · exact Or.inr ⟨h1, h2⟩
    · simp only [StdSet.contains, hx, decide_False, List.mem_cons]
      constructor
      · rintro (h | ⟨h1, h2⟩)
        · exact Or.inl h
        · exact Or.inr ⟨h1, Or.inr h2⟩
      · rintro (h | ⟨h1, rfl | h2⟩)
        · exact Or.inl h
        · exact absurd h1 hx
        · exact Or.inr ⟨h1, h2⟩

theorem ordered_collectRange (tmp acc : StdSet PageId) (r : PageRange PageId)
    (h : StdSet.Ordered acc) : StdSet.Ordered (collectRange tmp acc r) := by
  unfold collectRange
  generalize r.pages = l
  induction l generalizing acc with
  | nil => exact h
  | cons x rest ih =>
    simp only [List.foldl_cons]
    apply ih
    split
    · exact StdSet.ordered_insert acc x h
    · exact h

theorem mem_collectRanges (tmp acc : StdSet PageId) (ranges : List (PageRange PageId))
    (p : PageId) :
    p ∈ ranges.foldl (collectRange tmp) acc ↔
      p ∈ acc ∨ (p ∈ tmp ∧ ∃ r ∈ ranges, p ∈ r.pages) := by
  induction ranges generalizing acc with
  | nil => simp
  | cons r rest ih =>
    simp only [List.foldl_cons, ih, mem_collectRange, List.mem_cons]
    constructor
    · rintro ((h | ⟨h1, h2⟩) | ⟨h1, r', hr', h2⟩)
      · exact Or.inl h
      · exact Or.inr ⟨h1, r, Or.inl rfl, h2⟩
      · exact Or.inr ⟨h1, r', Or.inr hr', h2⟩
    · rintro (h | ⟨h1, r', rfl | hr', h2⟩)
      · exact Or.inl (Or.inl h)
      · exact Or.inl (Or.inr ⟨h1, h2⟩)
      · exact Or.inr ⟨h1, r', hr', h2⟩

theorem ordered_collectRanges (tmp acc : StdSet PageId) (ranges : List (PageRange PageId))
    (h : StdSet.Ordered acc) : StdSet.Ordered (ranges.foldl (collectRange tmp) acc) := by
  induction ranges generalizing acc with
  | nil => exact h
  | cons r rest ih => exact ih _ (ordered_collectRange tmp acc r h)

/-- C12: with the button `everyOtherSelectedRB` checked, `onSubmit` emits
`appliedTo` with this set: when there is exactly one selected range, the set
`selectEveryOther(m_curPage)` of that range; otherwise the set whose elements
are the pages of `m_pages.selectEveryOther(m_curPage)` that lie in a selected
range, which is the intersection with `m_selectedPages` when the selected
pages are the pages of the selected ranges. -/
theorem every_other_selected_scope (d : ApplyDialog PageId)
    (hc : d.checked = ScopeButton.everyOtherSelectedRB) :
    d.onSubmit = [Emitted.appliedTo d.everyOtherSelected, Emitted.accept] ∧
    (∀ front : PageRange PageId, d.m_selectedRanges = [front] →
      d.everyOtherSelected = front.selectEveryOther d.m_curPage) ∧
    (d.m_selectedRanges.length ≠ 1 →
      StdSet.Ordered d.everyOtherSelected ∧
      (∀ p : PageId, p ∈ d.everyOtherSelected ↔
        p ∈ d.m_pages.selectEveryOther d.m_curPage ∧
          ∃ r ∈ d.m_selectedRanges, p ∈ r.pages) ∧
      ((∀ p : PageId, p ∈ d.m_selectedPages ↔ ∃ r ∈ d.m_selectedRanges, p ∈ r.pages) →
        ∀ p : PageId, p ∈ d.everyOtherSelected ↔
          p ∈ d.m_pages.selectEveryOther d.m_curPage ∧ p ∈ d.m_selectedPages)) := by
  refine ⟨?_, ?_, ?_⟩
  · unfold onSubmit
    rw [hc]
  · intro front hf
    unfold everyOtherSelected
    simp [hf]
  · intro hlen
    have he : d.everyOtherSelected
        = d.m_selectedRanges.foldl (collectRange (d.m_pages.selectEveryOther d.m_curPage)) [] := by
      unfold everyOtherSelected
      rw [if_neg hlen]
    have hm : ∀ p : PageId, p ∈ d.everyOtherSelected ↔
        p ∈ d.m_pages.selectEveryOther d.m_curPage ∧ ∃ r ∈ d.m_selectedRanges, p ∈ r.pages := by
      intro p
      rw [he, mem_collectRanges]
      simp
    refine ⟨?_, hm, ?_⟩
    · rw [he]
      exact ordered_collectRanges _ _ _ List.Pairwise.nil
    · intro hsel p
      rw [hm p, hsel p]

/-- The pages are 1 to 8 and the current page is 3. With the ranges {1, 2, 3}
and {5} selected the set emitted is {1, 3, 5}; with the range {1, 2, 3} alone
it is {1, 3}. -/
theorem every_other_selected_scope_witness :
    exampleTwoRanges.onSubmit = [Emitted.appliedTo [1, 3, 5], Emitted.accept] ∧
    exampleOneRange.onSubmit = [Emitted.appliedTo [1, 3], Emitted.accept] := by
  have h2 : exampleTwoRanges.everyOtherSelected = [1, 3, 5] := by decide
  have h1 : exampleOneRange.everyOtherSelected = [1, 3] := by decide
  have t2 := (every_other_selected_scope exampleTwoRanges rfl).1
  have t1 := (every_other_selected_scope exampleOneRange rfl).1
  rw [h2] at t2
  rw [h1] at t1
  exact ⟨t2, t1⟩

/-- C20: with the button `thisEveryOtherRB` checked and `F` the set returned
by `selectPagePlusFollowers(m_curPage)`, `onSubmit` emits `appliedTo` with the
elements of `F` at the positions 0, 2, 4, ... of its ascending enumeration:
the set emitted is a subset of `F` with `ceil(n / 2)` elements for `n` the size
of `F`, it contains the smallest element of `F` when `F` is not empty, and no
two of its elements are neighbours in `F`. -/
theorem this_every_other_scope (d : ApplyDialog PageId)
    (hc : d.checked = ScopeButton.thisEveryOtherRB)
    (hF : StdSet.Ordered (d.m_pages.selectPagePlusFollowers d.m_curPage)) :
    d.onSubmit = [Emitted.appliedTo d.thisEveryOther, Emitted.accept] ∧
    (∀ i : Nat,
      d.thisEveryOther[i]? = (d.m_pages.selectPagePlusFollowers d.m_curPage)[2 * i]?) ∧
    (∀ p ∈ d.thisEveryOther, p ∈ d.m_pages.selectPagePlusFollowers d.m_curPage) ∧
    d.thisEveryOther.length
      = ((d.m_pages.selectPagePlusFollowers d.m_curPage).length + 1) / 2 ∧
    (∀ (x : PageId) (rest : List PageId),
      d.m_pages.selectPagePlusFollowers d.m_curPage = x :: rest →
      x ∈ d.thisEveryOther ∧ ∀ y ∈ d.m_pages.selectPagePlusFollowers d.m_curPage, x ≤ y) ∧
    (∀ (i : Nat) (a b : PageId),
      (d.m_pages.selectPagePlusFollowers d.m_curPage)[i]? = some a →
      (d.m_pages.selectPagePlusFollowers d.m_curPage)[i + 1]? = some b →
      ¬ (a ∈ d.thisEveryOther ∧ b ∈ d.thisEveryOther)) := by
  have he : d.thisEveryOther
      = StdSet.alternate (d.m_pages.selectPagePlusFollowers d.m_curPage) 0 := by
    unfold thisEveryOther
    rw [thisEveryOtherLoop_eq _ 0 [] (by simpa using hF)]
    rfl
  have hidx : ∀ i : Nat,
      d.thisEveryOther[i]? = (d.m_pages.selectPagePlusFollowers d.m_curPage)[2 * i]? := by
    intro i
    rw [he, StdSet.getElem?_alternate]
    rfl
  have hmem : ∀ p ∈ d.thisEveryOther,
      ∃ j, (d.m_pages.selectPagePlusFollowers d.m_curPage)[2 * j]? = some p := by
    intro p hp
    obtain ⟨j, hj⟩ := List.mem_iff_getElem?.mp hp
    exact ⟨j, by rw [← hidx j]; exact hj⟩
  refine ⟨?_, hidx, ?_, ?_, ?_, ?_⟩
  · unfold onSubmit
    rw [hc]
  · intro p hp
    obtain ⟨j, hj⟩ := hmem p hp
    exact List.mem_iff_getElem?.mpr ⟨2 * j, hj⟩
  · rw [he, StdSet.length_alternate]
  · intro x rest hx
    constructor
    · apply List.mem_iff_getElem?.mpr
      refine ⟨0, ?_⟩
      rw [hidx 0, hx]
      simp
    · intro y hy
      rw [hx] at hy hF
      rcases List.mem_cons.mp hy with rfl | hy
      · exact le_refl _
      · exact le_of_lt ((List.pairwise_cons.mp hF).1 y hy)
  · intro i a b ha hb hab
    obtain ⟨j, hj⟩ := hmem a hab.1
    obtain ⟨k, hk⟩ := hmem b hab.2
    have h1 := StdSet.index_unique _ hF _ _ _ ha hj
    have h2 := StdSet.index_unique _ hF _ _ _ hb hk
    omega

/-- The pages are 1 to 8 and the current page is 3: of the followers
{3, 4, 5, 6, 7, 8} the pages 3, 5 and 7 are emitted. -/
theorem this_every_other_scope_witness :
    exampleThisEveryOther.onSubmit = [Emitted.appliedTo [3, 5, 7], Emitted.accept] := by
  have h : exampleThisEveryOther.thisEveryOther = [3, 5, 7] := by decide
  have t := (this_every_other_scope exampleThisEveryOther rfl (by decide)).1
  rw [h] at t
  exact t

end ApplyDialog

end deskew
